import Mathlib

/-!
Verification development for the whatsapp-liveticker-bot scheduling/polling
engine.  The definitions below are a shallow embedding of the program's
current revision: `polling.js` (master scheduler, dispatcher, worker,
event processor, recap flush), `utils.js` (event formatters) and
`config.js` (the event code map).  JavaScript `Map`s are modelled as
association lists preserving insertion order, JS `Set`s of event ids as
duplicate-free `List Nat` in insertion order, and the stable
`Array.prototype.sort` as insertion sort.  Timer handles and job ids
(`Date.now()`) are modelled by monotone counters.  External I/O (browser
navigation, HTTP fetches, message sends) is supplied by oracle
parameters; observable deliveries are recorded in an action log.
-/

namespace Liveticker

/-- Ticker delivery mode, `'live' | 'recap'` in the source. -/
inductive Mode where
  | live
  | recap
deriving DecidableEq, Repr

/-- One raw event record from the upstream API.  Field names follow the
source (`idx`, `event`, `second`, `teamHome`, `pointsHome`, `pointsGuest`,
`personFirstname`, `personLastname`).  Absent player names are the empty
string, matching JS falsiness of `undefined`/`""`. -/
structure EventRec where
  idx : Nat
  event : Nat
  second : Nat := 0
  teamHome : Bool := false
  pointsHome : Nat := 0
  pointsGuest : Nat := 0
  personFirstname : String := ""
  personLastname : String := ""
deriving DecidableEq, Repr

/-- In-memory state of one ticker (one entry of the `activeTickers` map).
Fields that the JS object may lack (`undefined`) are `Option`s or carry
the JS-falsy default. -/
structure TickerState where
  seen : List Nat := []
  mode : Option Mode := none
  isPolling : Bool := false
  isScheduled : Bool := false
  isScheduling : Bool := false
  lastVersionUid : Option String := none
  recapEvents : List EventRec := []
  recapIntervalId : Option Nat := none
  scheduleTimeout : Option Nat := none
  teamNames : Option (String × String) := none
  halftimeLength : Option Nat := none
  groupName : String := ""
  meetingPageUrl : String := ""
deriving DecidableEq, Repr

/-- Job kind: the queue holds `'poll'` jobs (and the worker also knows how
to execute `'schedule'` jobs). -/
inductive JobType where
  | poll
  | schedule
deriving DecidableEq, Repr, Inhabited

/-- A queued unit of work, as pushed by `masterScheduler` /
`beginActualPolling`. -/
structure Job where
  type : JobType
  chatId : String
  meetingPageUrl : String := ""
  jobId : Nat := 0
deriving DecidableEq, Repr, Inhabited

/-- One entry of the persisted `scheduled_tickers.json` document. -/
structure ScheduleEntry where
  meetingPageUrl : String := ""
  startTime : String := ""
  groupName : String := ""
  halftimeLength : Option Nat := none
  mode : Option Mode := none
deriving DecidableEq, Repr

/-- JS `Map.get` on an insertion-ordered association list. -/
def mapGet (m : List (String × α)) (k : String) : Option α :=
  match m.find? (fun p => p.1 == k) with
  | some p => some p.2
  | none => none

/-- JS `Map.set`: update in place when the key exists, append otherwise. -/
def mapSet (m : List (String × α)) (k : String) (v : α) : List (String × α) :=
  if m.any (fun p => p.1 == k) then
    m.map (fun p => if p.1 == k then (k, v) else p)
  else
    m ++ [(k, v)]

/-- JS `Map.delete` / `delete obj[k]`. -/
def mapDelete (m : List (String × α)) (k : String) : List (String × α) :=
  m.filter (fun p => p.1 != k)

/-- The `EVENT_MAP` of `config.js`: event code to (label, emoji). -/
def eventMapLookup (code : Nat) : Option (String × String) :=
  match code with
  | 0 => some ("Spiel geht weiter", "🔁")
  | 1 => some ("Spiel unterbrochen", "⏳")
  | 2 => some ("Timeout", "⏳")
  | 3 => some ("Timeout", "⏳")
  | 4 => some ("Tor", "⚽")
  | 5 => some ("7-Meter Tor", "🎯")
  | 6 => some ("7-Meter Fehlwurf", "❌")
  | 8 => some ("Zeitstrafe", "⛔")
  | 9 => some ("Gelbe Karte", "🟨")
  | 11 => some ("Rote Karte", "🟥")
  | 14 => some ("Abpfiff (Halbzeit oder Spielende)", "⏸️")
  | 15 => some ("Spielbeginn", "▶️")
  | 16 => some ("Spielende", "🏁")
  | 17 => some ("Teamaufstellung", "👥")
  | _ => none

/-- `abbreviatePlayerName` from `utils.js`. -/
def abbreviatePlayerName (firstName lastName : String) : String :=
  if lastName == "" then ""
  else if firstName == "" then lastName
  else firstName.take 1 ++ ". " ++ lastName

/-- `String(n).padStart(2, '0')`. -/
def pad2 (n : Nat) : String :=
  if n < 10 then "0" ++ toString n else toString n

/-- `formatTimeFromSeconds` from `utils.js`. -/
def formatTimeFromSeconds (sec : Nat) : String :=
  pad2 (sec / 60) ++ ":" ++ pad2 (sec % 60)

/-- `formatEvent` from `utils.js`: live-mode / critical message text, empty
string for ignored events (codes 0, 1, 17). -/
def formatEvent (ev : EventRec) (st : TickerState) : String :=
  let info := (eventMapLookup ev.event).getD ("Unbekanntes Event " ++ toString ev.event, "📢")
  let label := info.1
  let emoji := info.2
  let homeTeamName := match st.teamNames with | some tn => tn.1 | none => "Heim"
  let guestTeamName := match st.teamNames with | some tn => tn.2 | none => "Gast"
  let team := if ev.teamHome then homeTeamName else guestTeamName
  let time := if ev.second == 0 then "" else " (" ++ formatTimeFromSeconds ev.second ++ ")"
  let abbreviatedPlayer := abbreviatePlayerName ev.personFirstname ev.personLastname
  let playerForGoal := if abbreviatedPlayer == "" then "" else " durch " ++ abbreviatedPlayer
  let scoreLine :=
    if ev.teamHome then
      homeTeamName ++ "  *" ++ toString ev.pointsHome ++ "*:" ++ toString ev.pointsGuest ++ "  " ++ guestTeamName
    else
      homeTeamName ++ "  " ++ toString ev.pointsHome ++ ":*" ++ toString ev.pointsGuest ++ "* " ++ guestTeamName
  match ev.event with
  | 4 => scoreLine ++ "\n" ++ emoji ++ " Tor" ++ playerForGoal ++ time
  | 5 => scoreLine ++ "\n" ++ emoji ++ " 7-Meter Tor" ++ playerForGoal ++ time
  | 6 => emoji ++ " 7-Meter Fehlwurf für *" ++ team ++ "*" ++ playerForGoal ++ time
  | 2 => emoji ++ " Timeout für *" ++ team ++ "*"
  | 3 => emoji ++ " Timeout für *" ++ team ++ "*"
  | 8 =>
    if abbreviatedPlayer == "" then emoji ++ " " ++ label ++ " für *" ++ team ++ "*" ++ time
    else emoji ++ " " ++ label ++ " für " ++ abbreviatedPlayer ++ " (*" ++ team ++ "*)" ++ time
  | 9 =>
    if abbreviatedPlayer == "" then emoji ++ " " ++ label ++ " für *" ++ team ++ "*" ++ time
    else emoji ++ " " ++ label ++ " für " ++ abbreviatedPlayer ++ " (*" ++ team ++ "*)" ++ time
  | 11 =>
    if abbreviatedPlayer == "" then emoji ++ " " ++ label ++ " für *" ++ team ++ "*" ++ time
    else emoji ++ " " ++ label ++ " für " ++ abbreviatedPlayer ++ " (*" ++ team ++ "*)" ++ time
  | 14 => "⏸️ *Halbzeit*\n" ++ homeTeamName ++ "  *" ++ toString ev.pointsHome ++ ":" ++ toString ev.pointsGuest ++ "* " ++ guestTeamName
  | 16 => "🏁 *Spielende*\n" ++ homeTeamName ++ "  *" ++ toString ev.pointsHome ++ ":" ++ toString ev.pointsGuest ++ "* " ++ guestTeamName
  | 15 => "▶️ *Das Spiel hat begonnen!*"
  | 0 => ""
  | 1 => ""
  | 17 => ""
  | _ => emoji ++ " " ++ label

/-- `formatRecapEventLine` from `utils.js`: one summary line per buffered
event, empty for codes 0, 1, 14, 15, 16, 17. -/
def formatRecapEventLine (ev : EventRec) (st : TickerState) : String :=
  let info := (eventMapLookup ev.event).getD ("Unbekanntes Event " ++ toString ev.event, "📢")
  let label := info.1
  let emoji := info.2
  let homeTeamName := match st.teamNames with | some tn => tn.1 | none => "Heim"
  let guestTeamName := match st.teamNames with | some tn => tn.2 | none => "Gast"
  let team := if ev.teamHome then homeTeamName else guestTeamName
  let time := if ev.second == 0 then "--:--" else formatTimeFromSeconds ev.second
  let abbreviatedPlayer := abbreviatePlayerName ev.personFirstname ev.personLastname
  let boldScore :=
    if ev.teamHome then "*" ++ toString ev.pointsHome ++ "*:" ++ toString ev.pointsGuest
    else toString ev.pointsHome ++ ":*" ++ toString ev.pointsGuest ++ "*"
  let plainScore := toString ev.pointsHome ++ ":" ++ toString ev.pointsGuest
  let teamDetail := if abbreviatedPlayer == "" then "*" ++ team ++ "*" else abbreviatedPlayer ++ " (*" ++ team ++ "*)"
  let line := fun (score eventLabel detail : String) =>
    "* " ++ emoji ++ " " ++ time ++ " | " ++ score ++ " | " ++ eventLabel ++ " | " ++ detail
  match ev.event with
  | 4 => line boldScore "Tor" abbreviatedPlayer
  | 5 => line boldScore "7m-Tor" abbreviatedPlayer
  | 6 => line plainScore "7m-Fehlwurf" teamDetail
  | 2 => line plainScore "Timeout" ("*" ++ team ++ "*")
  | 3 => line plainScore "Timeout" ("*" ++ team ++ "*")
  | 8 => line plainScore label teamDetail
  | 9 => line plainScore label teamDetail
  | 11 => line plainScore label teamDetail
  | 0 => ""
  | 1 => ""
  | 15 => ""
  | 17 => ""
  | 14 => ""
  | 16 => ""
  | _ => line plainScore label ""

/-- Comparator of `data.events.slice().sort((a, b) => a.idx - b.idx)`. -/
def evIdxLe (a b : EventRec) : Prop := a.idx ≤ b.idx

instance : DecidableRel evIdxLe := fun a b => inferInstanceAs (Decidable (a.idx ≤ b.idx))

instance : IsTotal EventRec evIdxLe := ⟨fun a b => Nat.le_total a.idx b.idx⟩

instance : IsTrans EventRec evIdxLe := ⟨fun _ _ _ h h2 => Nat.le_trans h h2⟩

/-- Stable ascending sort by sequence index (V8's `Array.sort` is stable). -/
def sortByIdx (l : List EventRec) : List EventRec := List.insertionSort evIdxLe l

/-- Comparator of `recapEvents.sort((a, b) => a.second - b.second)`. -/
def evSecLe (a b : EventRec) : Prop := a.second ≤ b.second

instance : DecidableRel evSecLe := fun a b => inferInstanceAs (Decidable (a.second ≤ b.second))

instance : IsTotal EventRec evSecLe := ⟨fun a b => Nat.le_total a.second b.second⟩

instance : IsTrans EventRec evSecLe := ⟨fun _ _ _ h h2 => Nat.le_trans h h2⟩

/-- Stable ascending sort by in-match second. -/
def sortBySecond (l : List EventRec) : List EventRec := List.insertionSort evSecLe l

/-- Observable effects of processing/flushing: `mark i code` records that
the id `i` of an event with code `code` was added to `seen`; `send` is an
attempted immediate delivery; `buffer` a recap-buffer append; `flushSend`
an attempted recap delivery; `fetch` a request for an event list. -/
inductive Action where
  | mark (idx code : Nat)
  | send (idx : Nat) (msg : String)
  | buffer (idx : Nat)
  | flushSend (msg : String)
  | fetch
deriving DecidableEq, Repr

/-- Result of `sendRecapMessage`.  `sent` is the attempted recap message if
one was composed; `threw` models the `TypeError` the source would raise
when building the team header while `teamNames` is undefined. -/
structure FlushRes where
  tickers : List (String × TickerState)
  sent : Option String := none
  attempts : Nat := 0
  threw : Bool := false
deriving DecidableEq, Repr

/-- The recap buffer in the (stable) in-match-second order the flush
establishes before reading it. -/
def recapSorted (st : TickerState) : List EventRec := sortBySecond st.recapEvents

/-- The per-event recap lines of the sorted buffer. -/
def recapLinesOf (st : TickerState) : List String :=
  (recapSorted st).map (fun e => formatRecapEventLine e { st with recapEvents := recapSorted st })

/-- Whitespace trim on both ends, as JS `String.prototype.trim`. -/
def strTrim (s : String) : String :=
  ⟨((s.data.dropWhile (fun c => c.isWhitespace)).reverse.dropWhile
      (fun c => c.isWhitespace)).reverse⟩

/-- The recap lines that survive the empty-line filter. -/
def validRecapLines (st : TickerState) : List String :=
  (recapLinesOf st).filter (fun l => l != "" && strTrim l != "")

/-- `Minute ${startMinute} - ${endMinute}`. -/
def recapTimeRangeTitle (startMinute endMinute : Nat) : String :=
  "Minute " ++ toString startMinute ++ " - " ++ toString endMinute

/-- The assembled recap message. -/
def recapFinalMessage (tn : String × String) (title : String) (lines : List String) : String :=
  "📬 *Recap " ++ title ++ "*\n\n" ++ ("*" ++ tn.1 ++ "* : *" ++ tn.2 ++ "*") ++ "\n"
    ++ String.intercalate "\n" lines

/-- `sendRecapMessage` from `polling.js`.  `sendOk k` tells whether the
`k`-th message send of the surrounding run succeeds; the buffer is cleared
in the success and in the failure branch alike. -/
def sendRecapMessageCore (tickers : List (String × TickerState)) (chatId : String)
    (sendOk : Nat → Bool) (attempts : Nat) : FlushRes :=
  match mapGet tickers chatId with
  | none => { tickers := tickers, attempts := attempts }
  | some st =>
    if !st.isPolling || st.recapEvents.isEmpty then
      -- `if (tickerState && tickerState.recapEvents) tickerState.recapEvents = [];`
      { tickers := mapSet tickers chatId { st with recapEvents := [] }, attempts := attempts }
    else
      -- the source sorts the buffer array in place
      let stS := { st with recapEvents := recapSorted st }
      let tick1 := mapSet tickers chatId stS
      let firstSec := ((recapSorted st).head?.map (fun e => e.second)).getD 0
      let lastSec := ((recapSorted st).getLast?.map (fun e => e.second)).getD 0
      let title := recapTimeRangeTitle (firstSec / 60) ((lastSec + 59) / 60)
      if (validRecapLines st).isEmpty then
        { tickers := mapSet tick1 chatId { stS with recapEvents := [] }, attempts := attempts }
      else
        match stS.teamNames with
        | none =>
          -- `tickerState.teamNames.home` on an undefined object: TypeError,
          -- the buffer stays uncleared
          { tickers := tick1, attempts := attempts, threw := true }
        | some tn =>
          -- try/catch: the buffer is cleared whether or not the send succeeds
          { tickers := mapSet tick1 chatId { stS with recapEvents := [] },
            sent := some (recapFinalMessage tn title (validRecapLines st)),
            attempts := attempts + 1 }

/-- Running state / result of `processEvents`.  `trace` records the marks,
delivery attempts and buffer appends in order; `threw` is set when an
unguarded `client.sendMessage` rejects, aborting the batch. -/
structure PRes where
  tickers : List (String × TickerState)
  queue : List Job
  trace : List Action := []
  attempts : Nat := 0
  anyNew : Bool := false
  threw : Bool := false
deriving DecidableEq, Repr

/-- The returned boolean of `processEvents` (`none` when the call threw). -/
def PRes.ret (r : PRes) : Option Bool := if r.threw then none else some r.anyNew

/-- One attempted `client.sendMessage` inside the event loop (unguarded in
the source: a rejection propagates). -/
def attemptSend (sendOk : Nat → Bool) (acc : PRes) (i : Nat) (msg : String) : PRes :=
  let ok := sendOk acc.attempts
  { acc with trace := acc.trace ++ [Action.send i msg], attempts := acc.attempts + 1, threw := !ok }

/-- Removal of the first queued job of a channel
(`findIndex` + `splice(index, 1)`). -/
def removeFirstJob : List Job → String → List Job
  | [], _ => []
  | j :: rest, c => if j.chatId == c then rest else j :: removeFirstJob rest c

/-- Dedup-mark plus delivery classification for one unseen event: add its
id to `seen` first, then send it immediately when it is critical (codes
14/16/15) or the mode is Live, append it to the recap buffer when the mode
is Recap — all only when the formatted message is non-empty. -/
def handleEvent (chatId : String) (sendOk : Nat → Bool) (ev : EventRec) (st : TickerState)
    (acc : PRes) : PRes :=
  let msg := formatEvent ev st
  let st1 := { st with seen := st.seen ++ [ev.idx] }
  let acc1 := { acc with
    tickers := mapSet acc.tickers chatId st1,
    trace := acc.trace ++ [Action.mark ev.idx ev.event],
    anyNew := true }
  if msg == "" then acc1
  else if ev.event == 14 || ev.event == 16 || ev.event == 15 then
    attemptSend sendOk acc1 ev.idx msg
  else if st1.mode == some Mode.live then
    attemptSend sendOk acc1 ev.idx msg
  else if st1.mode == some Mode.recap then
    { acc1 with
      tickers := mapSet acc1.tickers chatId { st1 with recapEvents := st1.recapEvents ++ [ev] },
      trace := acc1.trace ++ [Action.buffer ev.idx] }
  else acc1

/-- The game-end block of `processEvents`: stop the ticker, clear its
recap interval, flush a non-empty recap buffer, and remove any queued job
of the channel.  (The delayed stats/AI/thank-you messages and the delayed
registry cleanup are `setTimeout` side effects outside the loop's state.) -/
def handleGameEnd (chatId : String) (sendOk : Nat → Bool) (acc2 : PRes) : PRes :=
  match mapGet acc2.tickers chatId with
  | none => acc2
  | some stE =>
    let stE1 := { stE with isPolling := false, recapIntervalId := none }
    let accE := { acc2 with tickers := mapSet acc2.tickers chatId stE1 }
    let accF :=
      if stE1.mode == some Mode.recap && !stE1.recapEvents.isEmpty then
        let fr := sendRecapMessageCore accE.tickers chatId sendOk accE.attempts
        { accE with
          tickers := fr.tickers,
          attempts := fr.attempts,
          trace := accE.trace
            ++ (match fr.sent with | some m => [Action.flushSend m] | none => []),
          threw := fr.threw }
      else accE
    if accF.threw then accF
    else { accF with queue := removeFirstJob accF.queue chatId }

/-- The `for (const ev of events)` loop of `processEvents`, iterated over
the already-sorted batch.  Every mutation of the shared ticker object is
written through the map, which the source's in-place mutation of the
aliased `tickerState` object is equivalent to (the entry is never removed
while the loop runs). -/
def processLoop (chatId : String) (sendOk : Nat → Bool) : List EventRec → PRes → PRes
  | [], acc => acc
  | ev :: rest, acc =>
    match mapGet acc.tickers chatId with
    | none => acc
    | some st =>
      if ev.idx ∈ st.seen then
        processLoop chatId sendOk rest acc
      else
        let acc2 := handleEvent chatId sendOk ev st acc
        if acc2.threw then acc2
        else if ev.event == 16 then handleGameEnd chatId sendOk acc2
        else processLoop chatId sendOk rest acc2

/-- `processEvents(data, tickerState, chatId)` from `polling.js`.  `data`
is `none` when the response has no events array (the early `false`
return). -/
def processEventsCore (data : Option (List EventRec)) (chatId : String) (sendOk : Nat → Bool)
    (tickers : List (String × TickerState)) (queue : List Job) : PRes :=
  match data with
  | none => { tickers := tickers, queue := queue }
  | some evs => processLoop chatId sendOk (sortByIdx evs) { tickers := tickers, queue := queue }

/-- `MAX_WORKERS` from `polling.js`. -/
def MAX_WORKERS : Nat := 2

/-- Whole-system state: the `activeTickers` map, the shared `jobQueue`,
the jobs currently inside a running `runWorker` call (`running`, with
`activeWorkers` the counter the source keeps), the round-robin cursor
`lastPolledIndex`, the persisted schedule document, fresh-id counters for
timer handles and `Date.now()` job ids, and the cumulative delivery log. -/
structure Sys where
  tickers : List (String × TickerState) := []
  queue : List Job := []
  running : List Job := []
  activeWorkers : Nat := 0
  cursor : Int := -1
  scheduleStore : List (String × ScheduleEntry) := []
  nextTimerId : Nat := 0
  nextJobId : Nat := 0
  log : List Action := []
deriving DecidableEq, Repr

/-- The state the program starts from. -/
def Sys.init : Sys := {}

/-- `beginActualPolling(chatId)` from `polling.js`: idempotent promotion of
a ticker into the Polling phase. -/
def beginActualPolling (sys : Sys) (chatId : String) : Sys :=
  match mapGet sys.tickers chatId with
  | none =>
    -- missing state: only clean the schedule file
    { sys with scheduleStore := mapDelete sys.scheduleStore chatId }
  | some st =>
    if st.isPolling then sys
    else
      let promoted := { st with isPolling := true, isScheduled := false }
      let withTimer :=
        if st.mode == some Mode.recap then
          { promoted with recapIntervalId := some sys.nextTimerId }
        else promoted
      let sys1 := { sys with
        tickers := mapSet sys.tickers chatId withTimer,
        scheduleStore := mapDelete sys.scheduleStore chatId,
        nextTimerId := if st.mode == some Mode.recap then sys.nextTimerId + 1 else sys.nextTimerId }
      if sys1.queue.any (fun j => j.chatId == chatId && j.type != JobType.schedule) then sys1
      else
        { sys1 with
          queue := { type := JobType.poll, chatId := chatId,
                     meetingPageUrl := st.meetingPageUrl, jobId := sys1.nextJobId } :: sys1.queue,
          nextJobId := sys1.nextJobId + 1 }

/-- The Polling tickers, in the stable map order the scheduler uses
(`[...activeTickers.values()].filter(t => t.isPolling)` keyed). -/
def pollingOf (s : Sys) : List (String × TickerState) :=
  s.tickers.filter (fun p => p.2.isPolling)

/-- The index the fairness scheduler will poll on its next tick
(`(lastPolledIndex + 1) % pollingTickers.length`). -/
def selIdx (s : Sys) : Nat := ((s.cursor + 1) % ((pollingOf s).length : Int)).toNat

/-- The polling-list entry the fairness scheduler will select on its next
tick (the source reads it with a defaulted index access). -/
def selEntry (s : Sys) : String × TickerState := (pollingOf s).getD (selIdx s) ("", {})

/-- `masterScheduler()` from `polling.js`: one fairness-scheduler tick. -/
def masterScheduler (sys : Sys) : Sys :=
  if (pollingOf sys).length = 0 then sys
  else
    let sys1 := { sys with cursor := (sys.cursor + 1) % ((pollingOf sys).length : Int) }
    let sel := (selEntry sys).2
    -- `[...activeTickers.entries()].find(([key, val]) => val === tickerStateToPoll)?.[0]`
    match sys.tickers.find? (fun p => p.2 == sel) with
    | none => sys1
    | some found =>
      let chatId := found.1
      if chatId != "" && sel.isPolling
          && !(sys1.queue.any (fun j => j.chatId == chatId && j.type == JobType.poll)) then
        { sys1 with
          queue := sys1.queue ++ [{ type := JobType.poll, chatId := chatId,
                                    meetingPageUrl := sel.meetingPageUrl, jobId := sys1.nextJobId }],
          nextJobId := sys1.nextJobId + 1 }
      else sys1

/-- `dispatcherLoop()` from `polling.js`: one dispatcher tick (an `if`,
not a `while`). -/
def dispatcherLoop (sys : Sys) : Sys :=
  match sys.queue with
  | [] => sys
  | j :: rest =>
    if sys.activeWorkers < MAX_WORKERS then
      { sys with activeWorkers := sys.activeWorkers + 1, queue := rest,
                 running := sys.running ++ [j] }
    else sys

/-- Metadata the worker obtains from the captured meeting API call. -/
structure GameData where
  versionUid : Option String := none
  teamNames : Option (String × String) := none
  halftimeLength : Option Nat := none
deriving DecidableEq, Repr

/-- Oracle for one worker execution: whether the browser/metadata phase
succeeds, the metadata, whether the scheduled start lies in the future,
the events response (`none`: the events fetch itself failed; `some none`:
a response without events array), and the send-success oracle. -/
structure WOracle where
  fetchOk : Bool := true
  gameData : GameData := {}
  delayPos : Bool := false
  startTimeIso : String := ""
  eventsData : Option (Option (List EventRec)) := some none
  sendOk : Nat → Bool := fun _ => true

/-- JS numeric truthiness of an optional `halftimeLength`. -/
def natOptTruthy : Option Nat → Bool
  | some n => n != 0
  | none => false

/-- The backfill at the top of the `'poll'` branch: restore missing team
names / halftime length from the fetched metadata (JS truthiness checks). -/
def backfillMeta (st : TickerState) (g : GameData) : TickerState :=
  let st1 :=
    if st.teamNames == none && g.teamNames != none then
      { st with teamNames := g.teamNames }
    else st
  if !(natOptTruthy st1.halftimeLength) && natOptTruthy g.halftimeLength then
    { st1 with halftimeLength := g.halftimeLength }
  else st1

/-- The `'poll'` branch of `runWorker` (after the successful
browser/metadata phase), acting on the live registry. -/
def pollJobBody (sys : Sys) (job : Job) (st : TickerState) (o : WOracle) : Sys :=
  let st2 := backfillMeta st o.gameData
  let sys1 := { sys with tickers := mapSet sys.tickers job.chatId st2 }
  match o.gameData.versionUid with
  | none => sys1
  | some v =>
    if v != "" && some v != st2.lastVersionUid then
      let st3 := { st2 with lastVersionUid := some v }
      let sys2 := { sys1 with tickers := mapSet sys1.tickers job.chatId st3 }
      match o.eventsData with
      | none => sys2  -- events fetch rejected: caught, version bump already applied
      | some data =>
        let r := processEventsCore data job.chatId o.sendOk sys2.tickers sys2.queue
        { sys2 with tickers := r.tickers, queue := r.queue,
                    log := sys2.log ++ [Action.fetch] ++ r.trace }
    else sys1

/-- The `'schedule'` branch of `runWorker` (no call site enqueues such a
job in the current application wiring, but the worker supports it). -/
def scheduleJobBody (sys : Sys) (job : Job) (st : TickerState) (o : WOracle) : Sys :=
  let st1 := { st with teamNames := o.gameData.teamNames,
                       halftimeLength := o.gameData.halftimeLength }
  let sys1 := { sys with tickers := mapSet sys.tickers job.chatId st1 }
  if o.delayPos then
    let st2 := { st1 with scheduleTimeout := some sys1.nextTimerId }
    { sys1 with
      tickers := mapSet sys1.tickers job.chatId st2,
      scheduleStore := mapSet sys1.scheduleStore job.chatId
        { meetingPageUrl := job.meetingPageUrl, startTime := o.startTimeIso,
          groupName := st1.groupName, halftimeLength := st1.halftimeLength,
          mode := st1.mode },
      nextTimerId := sys1.nextTimerId + 1 }
  else beginActualPolling sys1 job.chatId

/-- The single decrement of `activeWorkers` every worker path performs
(early-return skip, catch, or the `finally` block), together with the end
of the ghost `running` entry. -/
def workerExit (sys : Sys) (job : Job) : Sys :=
  { sys with activeWorkers := sys.activeWorkers - 1, running := sys.running.erase job }

/-- `runWorker(job)` from `polling.js`, applied at completion time against
the then-current registry (the source re-reads `activeTickers.get(chatId)`
and mutates the live objects). -/
def runWorkerFinish (sys : Sys) (job : Job) (o : WOracle) : Sys :=
  match mapGet sys.tickers job.chatId with
  | none => workerExit sys job
  | some st =>
    if (job.type == JobType.poll && !st.isPolling)
        || (job.type == JobType.schedule && !st.isScheduling) then
      workerExit sys job
    else if !o.fetchOk then
      -- catch branch: a failed schedule job deletes the ticker entirely
      if job.type == JobType.schedule then
        workerExit { sys with tickers := mapDelete sys.tickers job.chatId } job
      else workerExit sys job
    else
      match job.type with
      | JobType.schedule => workerExit (scheduleJobBody sys job st o) job
      | JobType.poll => workerExit (pollJobBody sys job st o) job

/-- Oracle for `scheduleTicker` (the `!start` path): resolution success,
resolved metadata, and whether the pre-game start time is in the future. -/
structure SOracle where
  resolveOk : Bool := true
  teamNames : String × String := ("", "")
  halftimeLength : Option Nat := none
  delayPos : Bool := false
  startTimeIso : String := ""

/-- In-memory effect of one completed `scheduleTicker` call from
`polling.js` (ticker creation on a start command).  The legacy
`recapMessages = []` assignment of the source writes a field no other
current code reads and is not modelled. -/
def scheduleTickerDone (sys : Sys) (chatId url groupName : String) (mode : Mode) (o : SOracle) : Sys :=
  if !o.resolveOk then
    { sys with tickers := mapDelete sys.tickers chatId }
  else
    let st0 := (mapGet sys.tickers chatId).getD {}
    let st1 := { st0 with meetingPageUrl := url, teamNames := some o.teamNames,
                          groupName := groupName, halftimeLength := o.halftimeLength,
                          mode := some mode }
    if o.delayPos then
      let st2 := { st1 with isPolling := false, isScheduled := true,
                            scheduleTimeout := some sys.nextTimerId }
      { sys with
        tickers := mapSet sys.tickers chatId st2,
        scheduleStore := mapSet sys.scheduleStore chatId
          { meetingPageUrl := url, startTime := o.startTimeIso, groupName := groupName,
            halftimeLength := o.halftimeLength, mode := some mode },
        nextTimerId := sys.nextTimerId + 1 }
    else
      beginActualPolling { sys with tickers := mapSet sys.tickers chatId st1 } chatId

/-- One step of the timer-driven system: a fairness-scheduler tick, a
dispatcher tick, a Scheduled→Polling promotion (countdown timer fire or
restart recovery), a worker completion, or a completed start command. -/
inductive Step : Sys → Sys → Prop where
  | master (s : Sys) : Step s (masterScheduler s)
  | dispatch (s : Sys) : Step s (dispatcherLoop s)
  | promote (s : Sys) (chatId : String) : Step s (beginActualPolling s chatId)
  | complete (s : Sys) (job : Job) (o : WOracle) (h : job ∈ s.running) :
      Step s (runWorkerFinish s job o)
  | create (s : Sys) (chatId url groupName : String) (mode : Mode) (o : SOracle) :
      Step s (scheduleTickerDone s chatId url groupName mode o)

/-- States reachable from the program start. -/
inductive Reachable : Sys → Prop where
  | init : Reachable Sys.init
  | step {s t : Sys} : Reachable s → Step s t → Reachable t

/-- Whether a job is a Poll Job for the given channel. -/
def pollPred (c : String) : Job → Bool :=
  fun j => j.chatId == c && j.type == JobType.poll

/-- Number of Poll Jobs for a channel in a job list. -/
def countPollIn (q : List Job) (c : String) : Nat :=
  (q.filter (pollPred c)).length

/-- Number of Poll Jobs for a channel waiting in the queue. -/
def countQueuePoll (s : Sys) (c : String) : Nat := countPollIn s.queue c

/-- Number of jobs for a channel currently executing in a Worker. -/
def countRunning (s : Sys) (c : String) : Nat :=
  (s.running.filter (fun j => j.chatId == c)).length

/-- The event id an action concerns, if any. -/
def actionIdx : Action → Option Nat
  | Action.mark i _ => some i
  | Action.send i _ => some i
  | Action.buffer i => some i
  | Action.flushSend _ => none
  | Action.fetch => none

/-- All event ids a trace touched (marked, delivered or buffered). -/
def traceIdxs (l : List Action) : List Nat := l.filterMap actionIdx

/-- The ids newly added to `seen`, in chronological order. -/
def markIdxs (l : List Action) : List Nat :=
  l.filterMap (fun a => match a with | Action.mark i _ => some i | _ => none)

/-- Whether an action is an attempted immediate delivery. -/
def isSendA : Action → Bool
  | Action.send _ _ => true
  | _ => false

/-- Whether an action is a recap-buffer append. -/
def isBufferA : Action → Bool
  | Action.buffer _ => true
  | _ => false

/-- Whether an action is a dedup-mark. -/
def isMarkA : Action → Bool
  | Action.mark _ _ => true
  | _ => false

/-- Concrete run for the single-flight counterexample: start a ticker whose
game already began, dispatch its immediate Poll Job, then let the fairness
scheduler tick while that job is still executing. -/
def sysC1a : Sys := scheduleTickerDone Sys.init "g" "u" "grp" Mode.live {}

/-- `sysC1a` after one dispatcher tick: the Poll Job is now in a worker. -/
def sysC1b : Sys := dispatcherLoop sysC1a

/-- `sysC1b` after one fairness-scheduler tick: a second Poll Job for the
same channel enters the queue. -/
def sysC1c : Sys := masterScheduler sysC1b

/-- Concrete run for the dispatcher-drain counterexample: two tickers with
already-started games give a queue of two Poll Jobs and an idle pool. -/
def sysC8a : Sys :=
  scheduleTickerDone (scheduleTickerDone Sys.init "g1" "u" "grp" Mode.live {})
    "g2" "u" "grp" Mode.live {}

/-- A live-mode polling ticker used by the classification counterexample. -/
def stC6 : TickerState :=
  { mode := some Mode.live, isPolling := true, teamNames := some ("H", "G") }

/-- A line-up event (code 17): unseen, non-critical, formats to `""`. -/
def evC6 : EventRec := { idx := 5, event := 17 }

/-- Processing the single line-up event in live mode. -/
def resC6 : PRes := processEventsCore (some [evC6]) "g" (fun _ => true) [("g", stC6)] []

/-- A recap ticker that is no longer polling but still holds one buffered
event (exactly the state `processEvents` creates at game end before it
calls the flush). -/
def stC9 : TickerState :=
  { mode := some Mode.recap, isPolling := false, teamNames := some ("H", "G"),
    recapEvents := [{ idx := 3, event := 4, second := 30 }] }

/-- The same recap ticker as `stC9`, but currently polling. -/
def stC9p : TickerState :=
  { mode := some Mode.recap, isPolling := true, teamNames := some ("H", "G"),
    recapEvents := [{ idx := 3, event := 4, second := 30 }] }

/-- Flushing `stC9`: the buffer is dropped without any send. -/
def resC9 : FlushRes := sendRecapMessageCore [("g", stC9)] "g" (fun _ => true) 0

/-- A system with a single already-polling ticker (promotion witness). -/
def sysC7 : Sys := { tickers := [("g", { isPolling := true })] }

/-- A polling ticker that has already seen version token `"v1"`. -/
def stV : TickerState :=
  { isPolling := true, lastVersionUid := some "v1", mode := some Mode.live }

/-- A system holding `stV` (version-idempotence witness). -/
def sysV : Sys := { tickers := [("g", stV)] }

/-- A poll job for that ticker. -/
def jobV : Job := { type := JobType.poll, chatId := "g" }

/-- A worker oracle whose metadata carries the same version token again. -/
def oV : WOracle := { gameData := { versionUid := some "v1" } }

/-- A goal event used by witnesses. -/
def evGoal : EventRec := { idx := 1, event := 4, second := 90, teamHome := true, pointsHome := 1 }

/-- A live polling ticker used by the batch-processing witnesses. -/
def stC10 : TickerState :=
  { mode := some Mode.live, isPolling := true, teamNames := some ("H", "G"), seen := [5] }

/-- An unseen game-end event with a low sequence index. -/
def evG16 : EventRec := { idx := 1, event := 16, second := 3600, pointsHome := 30, pointsGuest := 28 }

/-- An unseen goal event with a higher sequence index than `evG16`. -/
def evA4 : EventRec := { idx := 2, event := 4, second := 3599, teamHome := true, pointsHome := 30 }

/-- An already-seen goal event (its id `5` is in `stC10.seen`). -/
def evSeen : EventRec := { idx := 5, event := 4, second := 100 }

/-- Two distinct polling tickers for the fairness witness. -/
def stA : TickerState := { isPolling := true, mode := some Mode.live, groupName := "A" }

/-- Second polling ticker of the fairness witness. -/
def stB : TickerState := { isPolling := true, mode := some Mode.live, groupName := "B" }

/-- Fairness-witness system: two polling tickers, fresh cursor, empty
queue and no in-flight workers. -/
def sysC5 : Sys := { tickers := [("a", stA), ("b", stB)], cursor := -1 }

/-- A system with no polling tickers. -/
def sysEmptyPoll : Sys := { tickers := [("c", { isPolling := false })] }

/-! ### Association-list lemmas -/

theorem find?_map_replace {α : Type} (m : List (String × α)) (k : String) (v : α)
    (h : m.any (fun p => p.1 == k) = true) :
    (m.map (fun p => if p.1 == k then (k, v) else p)).find? (fun p => p.1 == k) = some (k, v) := by
  induction m with
  | nil => simp at h
  | cons p rest ih =>
    rw [List.map_cons]
    by_cases hp : (p.1 == k) = true
    · rw [if_pos hp, @List.find?_cons_of_pos _ (fun q => q.1 == k) (k, v) _ (beq_self_eq_true k)]
    · have hrest : rest.any (fun p => p.1 == k) = true := by
        simp only [List.any_cons, Bool.or_eq_true] at h
        exact h.resolve_left hp
      rw [if_neg hp, @List.find?_cons_of_neg _ (fun q => q.1 == k) p _ hp]
      exact ih hrest

theorem find?_none_of_any_false {α : Type} (m : List (String × α)) (k : String)
    (h : m.any (fun p => p.1 == k) = false) :
    m.find? (fun p => p.1 == k) = none := by
  induction m with
  | nil => rfl
  | cons p rest ih =>
    simp only [List.any_cons, Bool.or_eq_false_iff] at h
    rw [@List.find?_cons_of_neg _ (fun q => q.1 == k) p _ (by simp [h.1])]
    exact ih h.2

theorem mapGet_mapSet_self {α : Type} (m : List (String × α)) (k : String) (v : α) :
    mapGet (mapSet m k v) k = some v := by
  unfold mapGet mapSet
  by_cases h : m.any (fun p => p.1 == k) = true
  · rw [if_pos h, find?_map_replace m k v h]
  · have h0 : m.any (fun p => p.1 == k) = false := by
      cases hb : m.any (fun p => p.1 == k) with
      | true => exact absurd hb h
      | false => rfl
    rw [if_neg h, List.find?_append, find?_none_of_any_false m k h0, Option.none_or,
        @List.find?_cons_of_pos _ (fun q => q.1 == k) (k, v) _ (beq_self_eq_true k)]

theorem find?_map_replace_ne {α : Type} (m : List (String × α)) (k k' : String) (v : α)
    (hne : k' ≠ k) :
    (m.map (fun p => if p.1 == k then (k, v) else p)).find? (fun p => p.1 == k')
      = m.find? (fun p => p.1 == k') := by
  induction m with
  | nil => rfl
  | cons p rest ih =>
    rw [List.map_cons]
    by_cases hp : (p.1 == k) = true
    · have hp' : (p.1 == k') = false := by
        cases hb : (p.1 == k') with
        | true => exact absurd (((eq_of_beq hp).symm.trans (eq_of_beq hb)).symm) hne
        | false => rfl
      rw [if_pos hp, @List.find?_cons_of_neg _ (fun q => q.1 == k') (k, v) _ (by intro hb; exact hne (eq_of_beq hb).symm),
          @List.find?_cons_of_neg _ (fun q => q.1 == k') p _ (by simp [hp']), ih]
    · rw [if_neg hp]
      cases hb : (p.1 == k') with
      | true =>
        rw [@List.find?_cons_of_pos _ (fun q => q.1 == k') p _ hb,
            @List.find?_cons_of_pos _ (fun q => q.1 == k') p _ hb]
      | false =>
        rw [@List.find?_cons_of_neg _ (fun q => q.1 == k') p _ (by simp [hb]),
            @List.find?_cons_of_neg _ (fun q => q.1 == k') p _ (by simp [hb]), ih]

theorem mapGet_mapSet_ne {α : Type} (m : List (String × α)) (k k' : String) (v : α)
    (hne : k' ≠ k) :
    mapGet (mapSet m k v) k' = mapGet m k' := by
  unfold mapGet mapSet
  by_cases h : m.any (fun p => p.1 == k) = true
  · rw [if_pos h, find?_map_replace_ne m k k' v hne]
  · rw [if_neg h, List.find?_append]
    cases hb : m.find? (fun p => p.1 == k') with
    | some q => rfl
    | none =>
      rw [Option.none_or,
          @List.find?_cons_of_neg _ (fun q => q.1 == k') (k, v) _ (by intro hb; exact hne (eq_of_beq hb).symm)]
      rfl

theorem mapGet_mapDelete_self {α : Type} (m : List (String × α)) (k : String) :
    mapGet (mapDelete m k) k = none := by
  unfold mapGet mapDelete
  have key : (m.filter (fun p => p.1 != k)).find? (fun p => p.1 == k) = none := by
    induction m with
    | nil => rfl
    | cons p rest ih =>
      by_cases hp : (p.1 == k) = true
      · rw [@List.filter_cons_of_neg _ (fun q => q.1 != k) p rest (by simp [bne, hp])]
        exact ih
      · rw [@List.filter_cons_of_pos _ (fun q => q.1 != k) p rest (by simp only [bne_iff_ne]; exact fun hh => hp (hh ▸ beq_self_eq_true k)),
            @List.find?_cons_of_neg _ (fun q => q.1 == k) p _ hp]
        exact ih
  rw [key]

theorem mapGet_mapDelete_ne {α : Type} (m : List (String × α)) (k k' : String)
    (hne : k' ≠ k) :
    mapGet (mapDelete m k) k' = mapGet m k' := by
  unfold mapGet mapDelete
  have key : (m.filter (fun p => p.1 != k)).find? (fun p => p.1 == k')
      = m.find? (fun p => p.1 == k') := by
    induction m with
    | nil => rfl
    | cons p rest ih =>
      by_cases hp : (p.1 == k) = true
      · have hp' : (p.1 == k') = false := by
          cases hb : (p.1 == k') with
          | true => exact absurd (((eq_of_beq hp).symm.trans (eq_of_beq hb)).symm) hne
          | false => rfl
        rw [@List.filter_cons_of_neg _ (fun q => q.1 != k) p rest (by simp [bne, hp]),
            @List.find?_cons_of_neg _ (fun q => q.1 == k') p _ (by simp [hp']), ih]
      · rw [@List.filter_cons_of_pos _ (fun q => q.1 != k) p rest (by simp only [bne_iff_ne]; exact fun hh => hp (hh ▸ beq_self_eq_true k))]
        cases hb : (p.1 == k') with
        | true =>
          rw [@List.find?_cons_of_pos _ (fun q => q.1 == k') p _ hb,
              @List.find?_cons_of_pos _ (fun q => q.1 == k') p _ hb]
        | false =>
          rw [@List.find?_cons_of_neg _ (fun q => q.1 == k') p _ (by simp [hb]),
              @List.find?_cons_of_neg _ (fun q => q.1 == k') p _ (by simp [hb]), ih]
  rw [key]

theorem mapGet_isSome_mapSet {α : Type} (m : List (String × α)) (k k' : String) (v : α)
    (h : (mapGet m k').isSome = true) : (mapGet (mapSet m k v) k').isSome = true := by
  by_cases hk : k' = k
  · subst hk; rw [mapGet_mapSet_self]; rfl
  · rw [mapGet_mapSet_ne m k k' v hk]; exact h

/-! ### String helpers -/

theorem strAppend_ne_empty_left (a b : String) (ha : a ≠ "") : a ++ b ≠ "" := by
  intro h
  apply ha
  have h2 : (a ++ b).data = ("" : String).data := by rw [h]
  rw [String.data_append] at h2
  have h3 : a.data = [] := (List.append_eq_nil.mp h2).1
  cases a with
  | mk d => cases h3; rfl

theorem formatEvent_critical_ne_empty (ev : EventRec) (st : TickerState)
    (h : ev.event = 14 ∨ ev.event = 16 ∨ ev.event = 15) :
    formatEvent ev st ≠ "" := by
  rcases h with h | h | h <;> simp only [formatEvent, h]
  · repeat' apply strAppend_ne_empty_left
    decide
  · repeat' apply strAppend_ne_empty_left
    decide
  · decide

/-! ### C7: idempotence of the Scheduled→Polling promotion -/

/-- C7: calling the promotion entry point `beginActualPolling` while the
ticker's status is already Polling is a no-op — the ticker map (status,
timers, recap buffer), the schedule store and the job queue are all left
unchanged. -/
theorem beginActualPolling_idempotent (sys : Sys) (chatId : String) (st : TickerState)
    (hget : mapGet sys.tickers chatId = some st) (hpoll : st.isPolling = true) :
    beginActualPolling sys chatId = sys := by
  unfold beginActualPolling
  rw [hget]
  simp [hpoll]

/-- Witness for `beginActualPolling_idempotent` at a concrete system. -/
theorem beginActualPolling_idempotent_witness :
    mapGet sysC7.tickers "g" = some { isPolling := true }
      ∧ beginActualPolling sysC7 "g" = sysC7 :=
  ⟨rfl, beginActualPolling_idempotent sysC7 "g" { isPolling := true } rfl rfl⟩

/-! ### C8: dispatcher behaviour -/

/-- C8 (counterexample): the dispatcher tick is an `if`, not a `while`.
`sysC8a` is reachable (two start commands for already-running games), has
two queued jobs and an idle pool, and after a single dispatcher
invocation the queue is still non-empty while `activeWorkers` is below
`MAX_WORKERS`. -/
theorem dispatcher_drain_counterexample :
    Reachable sysC8a
      ∧ sysC8a.queue.length = 2 ∧ sysC8a.activeWorkers = 0
      ∧ ¬((dispatcherLoop sysC8a).queue = []
            ∨ (dispatcherLoop sysC8a).activeWorkers = MAX_WORKERS) := by
  refine ⟨?_, by decide, by decide, by decide⟩
  exact Reachable.step
    (Reachable.step Reachable.init (Step.create _ "g1" "u" "grp" Mode.live {}))
    (Step.create _ "g2" "u" "grp" Mode.live {})

/-- C8 (amended): a single invocation of `dispatcherLoop` dispatches at
most one job — when the queue is non-empty and `activeWorkers <
MAX_WORKERS` it pops exactly the front job (FIFO), increments
`activeWorkers` and launches one Worker for it; in every other case it
changes nothing.  Draining until the queue is empty or the pool is full
only happens across repeated ticks. -/
theorem dispatcherLoop_single_step (sys : Sys) :
    (∀ j rest, sys.queue = j :: rest → sys.activeWorkers < MAX_WORKERS →
        dispatcherLoop sys
          = { sys with activeWorkers := sys.activeWorkers + 1, queue := rest,
                       running := sys.running ++ [j] })
      ∧ (sys.queue = [] → dispatcherLoop sys = sys)
      ∧ (MAX_WORKERS ≤ sys.activeWorkers → dispatcherLoop sys = sys) := by
  refine ⟨?_, ?_, ?_⟩
  · intro j rest hq hlt
    unfold dispatcherLoop
    rw [hq]
    simp [hlt]
  · intro hq
    unfold dispatcherLoop
    rw [hq]
  · intro hge
    unfold dispatcherLoop
    cases hq : sys.queue with
    | nil => rfl
    | cons j rest => simp [Nat.not_lt.mpr hge]

/-- Witness for `dispatcherLoop_single_step` at the concrete two-job
system. -/
theorem dispatcherLoop_single_step_witness :
    dispatcherLoop sysC8a
      = { sysC8a with activeWorkers := sysC8a.activeWorkers + 1,
                      queue := sysC8a.queue.tail,
                      running := sysC8a.running ++ [sysC8a.queue.head!] } := by
  have h := (dispatcherLoop_single_step sysC8a).1 sysC8a.queue.head! sysC8a.queue.tail
    (by decide) (by decide)
  exact h

/-! ### C1: single flight per ticker -/

/-- C1 (counterexample): the "smart queue" guards look only at the pending
queue, not at executing Workers.  `sysC1c` is reachable — start a ticker
whose game already began (its Poll Job is enqueued), dispatch it, and let
the fairness scheduler tick while that worker is still running — and then
channel `"g"` has one queued plus one executing Poll Job, violating the
claimed bound of one. -/
theorem single_flight_counterexample :
    Reachable sysC1c
      ∧ countQueuePoll sysC1c "g" + countRunning sysC1c "g" = 2
      ∧ ¬(countQueuePoll sysC1c "g" + countRunning sysC1c "g" ≤ 1) := by
  refine ⟨?_, by decide, by decide⟩
  exact Reachable.step
    (Reachable.step
      (Reachable.step Reachable.init (Step.create _ "g" "u" "grp" Mode.live {}))
      (Step.dispatch _))
    (Step.master _)

/-! ### C9: recap flush -/

/-- C9 (counterexample): flushing a ticker that holds a non-empty recap
buffer but is not in Polling status sends nothing and silently clears the
buffer, contradicting the claim that a non-empty buffer is always joined
and sent.  (`processEvents` itself creates exactly this situation at game
end: it sets `isPolling = false` before calling the flush.) -/
theorem recap_flush_counterexample :
    stC9.recapEvents ≠ []
      ∧ resC9.sent = none
      ∧ mapGet resC9.tickers "g" = some { stC9 with recapEvents := [] }
      ∧ resC9.threw = false := by
  exact ⟨by decide, by decide, by decide, rfl⟩

/-! ### C6: delivery-mode classification -/

/-- C6 (counterexample): a line-up event (code 17) is unseen, not a
critical event, and the ticker is in Live mode, yet processing it
delivers nothing (and buffers nothing): it is only marked seen, because
`formatEvent` returns the empty string for codes 0/1/17 and `processEvents`
skips delivery for empty messages. -/
theorem classification_counterexample :
    evC6.idx ∉ stC6.seen
      ∧ ¬(evC6.event = 14 ∨ evC6.event = 16 ∨ evC6.event = 15)
      ∧ stC6.mode = some Mode.live
      ∧ resC6.trace = [Action.mark evC6.idx evC6.event]
      ∧ resC6.trace.filter isSendA = []
      ∧ resC6.trace.filter isBufferA = [] := by
  exact ⟨by decide, by decide, rfl, by decide, by decide, by decide⟩

/-! ### Loop equations and `handleEvent` characterisations -/

theorem processLoop_nil (c : String) (sk : Nat → Bool) (acc : PRes) :
    processLoop c sk [] acc = acc := rfl

theorem processLoop_cons_none (c : String) (sk : Nat → Bool) (ev : EventRec)
    (rest : List EventRec) (acc : PRes) (h : mapGet acc.tickers c = none) :
    processLoop c sk (ev :: rest) acc = acc := by
  unfold processLoop
  rw [h]

theorem processLoop_cons_seen (c : String) (sk : Nat → Bool) (ev : EventRec)
    (rest : List EventRec) (acc : PRes) (st : TickerState)
    (h : mapGet acc.tickers c = some st) (hs : ev.idx ∈ st.seen) :
    processLoop c sk (ev :: rest) acc = processLoop c sk rest acc := by
  conv_lhs => rw [processLoop]
  simp only [h]
  rw [if_pos hs]

theorem processLoop_cons_unseen (c : String) (sk : Nat → Bool) (ev : EventRec)
    (rest : List EventRec) (acc : PRes) (st : TickerState)
    (h : mapGet acc.tickers c = some st) (hs : ev.idx ∉ st.seen) :
    processLoop c sk (ev :: rest) acc
      = (if (handleEvent c sk ev st acc).threw then handleEvent c sk ev st acc
         else if ev.event == 16 then handleGameEnd c sk (handleEvent c sk ev st acc)
         else processLoop c sk rest (handleEvent c sk ev st acc)) := by
  conv_lhs => rw [processLoop]
  simp only [h]
  rw [if_neg hs]

theorem handleEvent_eq_empty (c : String) (sk : Nat → Bool) (ev : EventRec)
    (st : TickerState) (acc : PRes) (h : formatEvent ev st = "") :
    handleEvent c sk ev st acc
      = { acc with tickers := mapSet acc.tickers c { st with seen := st.seen ++ [ev.idx] },
                   trace := acc.trace ++ [Action.mark ev.idx ev.event], anyNew := true } := by
  unfold handleEvent
  simp [h]

theorem handleEvent_eq_crit (c : String) (sk : Nat → Bool) (ev : EventRec)
    (st : TickerState) (acc : PRes)
    (h : ev.event = 14 ∨ ev.event = 16 ∨ ev.event = 15) :
    handleEvent c sk ev st acc
      = { acc with tickers := mapSet acc.tickers c { st with seen := st.seen ++ [ev.idx] },
                   trace := acc.trace
                     ++ [Action.mark ev.idx ev.event, Action.send ev.idx (formatEvent ev st)],
                   attempts := acc.attempts + 1, anyNew := true,
                   threw := !sk acc.attempts } := by
  have hne := formatEvent_critical_ne_empty ev st h
  unfold handleEvent attemptSend
  rcases h with h | h | h <;> simp [h, hne]

theorem handleEvent_eq_live (c : String) (sk : Nat → Bool) (ev : EventRec)
    (st : TickerState) (acc : PRes)
    (hnc : ¬(ev.event = 14 ∨ ev.event = 16 ∨ ev.event = 15))
    (hne : formatEvent ev st ≠ "") (hm : st.mode = some Mode.live) :
    handleEvent c sk ev st acc
      = { acc with tickers := mapSet acc.tickers c { st with seen := st.seen ++ [ev.idx] },
                   trace := acc.trace
                     ++ [Action.mark ev.idx ev.event, Action.send ev.idx (formatEvent ev st)],
                   attempts := acc.attempts + 1, anyNew := true,
                   threw := !sk acc.attempts } := by
  push_neg at hnc
  unfold handleEvent attemptSend
  simp [hnc.1, hnc.2.1, hnc.2.2, hne, hm]

theorem handleEvent_eq_recap (c : String) (sk : Nat → Bool) (ev : EventRec)
    (st : TickerState) (acc : PRes)
    (hnc : ¬(ev.event = 14 ∨ ev.event = 16 ∨ ev.event = 15))
    (hne : formatEvent ev st ≠ "") (hm : st.mode = some Mode.recap) :
    handleEvent c sk ev st acc
      = { acc with
            tickers := mapSet (mapSet acc.tickers c { st with seen := st.seen ++ [ev.idx] }) c
              { st with seen := st.seen ++ [ev.idx], recapEvents := st.recapEvents ++ [ev] },
            trace := acc.trace ++ [Action.mark ev.idx ev.event, Action.buffer ev.idx],
            anyNew := true } := by
  push_neg at hnc
  unfold handleEvent
  simp [hnc.1, hnc.2.1, hnc.2.2, hne, hm]

theorem handleEvent_eq_nomode (c : String) (sk : Nat → Bool) (ev : EventRec)
    (st : TickerState) (acc : PRes)
    (hnc : ¬(ev.event = 14 ∨ ev.event = 16 ∨ ev.event = 15))
    (hne : formatEvent ev st ≠ "") (hm : st.mode = none) :
    handleEvent c sk ev st acc
      = { acc with tickers := mapSet acc.tickers c { st with seen := st.seen ++ [ev.idx] },
                   trace := acc.trace ++ [Action.mark ev.idx ev.event], anyNew := true } := by
  push_neg at hnc
  unfold handleEvent
  simp [hnc.1, hnc.2.1, hnc.2.2, hne, hm]

theorem sendRecap_not_polling (tks : List (String × TickerState)) (c : String)
    (sk : Nat → Bool) (att : Nat) (st : TickerState)
    (h : mapGet tks c = some st) (hp : st.isPolling = false) :
    sendRecapMessageCore tks c sk att
      = { tickers := mapSet tks c { st with recapEvents := [] }, attempts := att } := by
  unfold sendRecapMessageCore
  rw [h]
  simp [hp]

/-- The game-end block never changes the trace, the thrown-flag or the
returned-novelty flag (the flush it triggers always hits the not-polling
early return, because the ticker was just stopped). -/
theorem handleGameEnd_spec (c : String) (sk : Nat → Bool) (acc2 : PRes)
    (h2 : acc2.threw = false) :
    (handleGameEnd c sk acc2).trace = acc2.trace
      ∧ (handleGameEnd c sk acc2).threw = false
      ∧ (handleGameEnd c sk acc2).anyNew = acc2.anyNew := by
  unfold handleGameEnd
  cases hg : mapGet acc2.tickers c with
  | none => exact ⟨rfl, h2, rfl⟩
  | some stE =>
    simp only
    by_cases hf : (stE.mode == some Mode.recap && !stE.recapEvents.isEmpty) = true
    · rw [if_pos hf]
      rw [sendRecap_not_polling
        (mapSet acc2.tickers c { stE with isPolling := false, recapIntervalId := none }) c sk
        acc2.attempts { stE with isPolling := false, recapIntervalId := none }
        (mapGet_mapSet_self acc2.tickers c _) rfl]
      simp
    · rw [if_neg hf]
      simp [h2]

/-- Processing a single-event batch never changes the trace beyond what
`handleEvent` emitted (the game-end block adds nothing to it). -/
theorem processLoop_single_trace (c : String) (sk : Nat → Bool) (ev : EventRec)
    (acc : PRes) (st : TickerState)
    (h : mapGet acc.tickers c = some st) (hs : ev.idx ∉ st.seen) :
    (processLoop c sk [ev] acc).trace = (handleEvent c sk ev st acc).trace := by
  rw [processLoop_cons_unseen c sk ev [] acc st h hs]
  by_cases hthrew : (handleEvent c sk ev st acc).threw = true
  · rw [if_pos hthrew]
  · have h2 : (handleEvent c sk ev st acc).threw = false := by
      cases hb : (handleEvent c sk ev st acc).threw with
      | true => exact absurd hb hthrew
      | false => rfl
    rw [if_neg hthrew]
    by_cases h16 : (ev.event == 16) = true
    · rw [if_pos h16]
      exact (handleGameEnd_spec c sk _ h2).1
    · rw [if_neg h16, processLoop_nil]

/-- A single-event batch whose event is not the game-end marker reduces to
just `handleEvent`. -/
theorem processLoop_single_non16 (c : String) (sk : Nat → Bool) (ev : EventRec)
    (acc : PRes) (st : TickerState)
    (h : mapGet acc.tickers c = some st) (hs : ev.idx ∉ st.seen) (h16 : ev.event ≠ 16) :
    processLoop c sk [ev] acc = handleEvent c sk ev st acc := by
  rw [processLoop_cons_unseen c sk ev [] acc st h hs]
  have hb16 : (ev.event == 16) = false := by
    cases hb : (ev.event == 16) with
    | true => exact absurd (by exact eq_of_beq hb) h16
    | false => rfl
  by_cases hthrew : (handleEvent c sk ev st acc).threw = true
  · rw [if_pos hthrew]
  · rw [if_neg hthrew, hb16]
    simp [processLoop_nil]

/-- C6 (amended): classification of one unseen processed event.  Critical
events (codes 14/16/15) are delivered immediately regardless of mode; a
non-critical event whose formatted message is non-empty is delivered
immediately in Live mode and appended to the recap buffer in Recap mode;
an event formatting to the empty string is neither delivered nor buffered
in any mode (it is only marked seen). -/
theorem classification_amended (tickers : List (String × TickerState)) (queue : List Job)
    (c : String) (sendOk : Nat → Bool) (st : TickerState) (ev : EventRec)
    (hget : mapGet tickers c = some st) (hseen : ev.idx ∉ st.seen) :
    ((ev.event = 14 ∨ ev.event = 16 ∨ ev.event = 15) →
        (processEventsCore (some [ev]) c sendOk tickers queue).trace
          = [Action.mark ev.idx ev.event, Action.send ev.idx (formatEvent ev st)])
      ∧ (¬(ev.event = 14 ∨ ev.event = 16 ∨ ev.event = 15) → formatEvent ev st ≠ "" →
          st.mode = some Mode.live →
          (processEventsCore (some [ev]) c sendOk tickers queue).trace
            = [Action.mark ev.idx ev.event, Action.send ev.idx (formatEvent ev st)])
      ∧ (¬(ev.event = 14 ∨ ev.event = 16 ∨ ev.event = 15) → formatEvent ev st ≠ "" →
          st.mode = some Mode.recap →
          (processEventsCore (some [ev]) c sendOk tickers queue).trace
            = [Action.mark ev.idx ev.event, Action.buffer ev.idx]
          ∧ ∃ st', mapGet (processEventsCore (some [ev]) c sendOk tickers queue).tickers c
                = some st'
              ∧ st'.recapEvents = st.recapEvents ++ [ev])
      ∧ (formatEvent ev st = "" →
          (processEventsCore (some [ev]) c sendOk tickers queue).trace
            = [Action.mark ev.idx ev.event]) := by
  have hrw : processEventsCore (some [ev]) c sendOk tickers queue
      = processLoop c sendOk [ev] { tickers := tickers, queue := queue } := rfl
  have hinit : mapGet (PRes.tickers { tickers := tickers, queue := queue }) c = some st := hget
  refine ⟨?_, ?_, ?_, ?_⟩
  · intro hcrit
    rw [hrw, processLoop_single_trace c sendOk ev _ st hinit hseen,
        handleEvent_eq_crit c sendOk ev st _ hcrit]
    simp
  · intro hnc hne hm
    have h16 : ev.event ≠ 16 := by
      push_neg at hnc
      exact hnc.2.1
    rw [hrw, processLoop_single_non16 c sendOk ev _ st hinit hseen h16,
        handleEvent_eq_live c sendOk ev st _ hnc hne hm]
    simp
  · intro hnc hne hm
    have h16 : ev.event ≠ 16 := by
      push_neg at hnc
      exact hnc.2.1
    rw [hrw, processLoop_single_non16 c sendOk ev _ st hinit hseen h16,
        handleEvent_eq_recap c sendOk ev st _ hnc hne hm]
    refine ⟨by simp, ?_⟩
    exact ⟨{ st with seen := st.seen ++ [ev.idx], recapEvents := st.recapEvents ++ [ev] },
      mapGet_mapSet_self _ c _, rfl⟩
  · intro hmt
    have h16 : ev.event ≠ 16 := by
      intro hc
      exact formatEvent_critical_ne_empty ev st (Or.inr (Or.inl hc)) hmt
    rw [hrw, processLoop_single_non16 c sendOk ev _ st hinit hseen h16,
        handleEvent_eq_empty c sendOk ev st _ hmt]
    simp

/-- Witness for `classification_amended`: a goal event in a live-mode
ticker is delivered immediately. -/
theorem classification_amended_witness :
    mapGet [("g", stC6)] "g" = some stC6
      ∧ evGoal.idx ∉ stC6.seen
      ∧ (processEventsCore (some [evGoal]) "g" (fun _ => true) [("g", stC6)] []).trace
          = [Action.mark evGoal.idx evGoal.event, Action.send evGoal.idx (formatEvent evGoal stC6)] := by
  refine ⟨rfl, by decide, ?_⟩
  exact (classification_amended [("g", stC6)] [] "g" (fun _ => true) stC6 evGoal rfl
    (by decide)).2.1 (by decide) (by decide) rfl

/-! ### C3: worker-pool bound -/

theorem beginActualPolling_activeWorkers (s : Sys) (c : String) :
    (beginActualPolling s c).activeWorkers = s.activeWorkers := by
  unfold beginActualPolling
  dsimp only
  repeat' split
  all_goals rfl

theorem masterScheduler_activeWorkers (s : Sys) :
    (masterScheduler s).activeWorkers = s.activeWorkers := by
  unfold masterScheduler
  dsimp only
  repeat' split
  all_goals rfl

theorem pollJobBody_activeWorkers (s : Sys) (job : Job) (st : TickerState) (o : WOracle) :
    (pollJobBody s job st o).activeWorkers = s.activeWorkers := by
  unfold pollJobBody
  dsimp only
  repeat' split
  all_goals rfl

theorem scheduleJobBody_activeWorkers (s : Sys) (job : Job) (st : TickerState) (o : WOracle) :
    (scheduleJobBody s job st o).activeWorkers = s.activeWorkers := by
  unfold scheduleJobBody
  dsimp only
  split
  · rfl
  · rw [beginActualPolling_activeWorkers]

theorem scheduleTickerDone_activeWorkers (s : Sys) (c u g : String) (mode : Mode)
    (o : SOracle) :
    (scheduleTickerDone s c u g mode o).activeWorkers = s.activeWorkers := by
  unfold scheduleTickerDone
  dsimp only
  split
  · rfl
  · split
    · rfl
    · rw [beginActualPolling_activeWorkers]

/-- Every execution path of a worker — success, failure, or pre-check skip
— frees exactly one worker slot. -/
theorem runWorkerFinish_decrements (s : Sys) (job : Job) (o : WOracle) :
    (runWorkerFinish s job o).activeWorkers = s.activeWorkers - 1 := by
  unfold runWorkerFinish workerExit
  dsimp only
  repeat' split
  all_goals simp only [scheduleJobBody_activeWorkers, pollJobBody_activeWorkers]

/-- C3: in every reachable state `activeWorkers ≤ MAX_WORKERS`, and every
execution path of a Worker (success, failure, or pre-check skip)
decrements `activeWorkers` exactly once, so every dispatch/completion step
preserves the bound. -/
theorem worker_pool_bound :
    (∀ s : Sys, Reachable s → s.activeWorkers ≤ MAX_WORKERS)
      ∧ (∀ (s : Sys) (job : Job) (o : WOracle), 0 < s.activeWorkers →
          (runWorkerFinish s job o).activeWorkers + 1 = s.activeWorkers) := by
  constructor
  · intro s hs
    induction hs with
    | init => exact Nat.zero_le _
    | step hr hstep ih =>
      rename_i s1 t1
      cases hstep with
      | master => rw [masterScheduler_activeWorkers]; exact ih
      | dispatch =>
        unfold dispatcherLoop
        cases hq : s1.queue with
        | nil => simp only [hq]; exact ih
        | cons j rest =>
          simp only [hq]
          by_cases hlt : s1.activeWorkers < MAX_WORKERS
          · rw [if_pos hlt]
            exact hlt
          · rw [if_neg hlt]
            exact ih
      | promote c => rw [beginActualPolling_activeWorkers]; exact ih
      | complete job o hmem =>
        rw [runWorkerFinish_decrements]
        exact Nat.le_trans (Nat.sub_le _ _) ih
      | create c u g mode o => rw [scheduleTickerDone_activeWorkers]; exact ih
  · intro s job o hpos
    rw [runWorkerFinish_decrements]
    omega

/-- Witness for `worker_pool_bound`: the bound at the initial state, and
the exact decrement at a concrete busy system. -/
theorem worker_pool_bound_witness :
    Sys.init.activeWorkers ≤ MAX_WORKERS
      ∧ (runWorkerFinish { activeWorkers := 1 } { type := JobType.poll, chatId := "g" }
            {}).activeWorkers + 1 = 1 :=
  ⟨worker_pool_bound.1 Sys.init Reachable.init,
   worker_pool_bound.2 { activeWorkers := 1 } { type := JobType.poll, chatId := "g" } {}
     (by decide)⟩

/-! ### C1 (amended): at most one queued Poll Job per channel -/

theorem countPollIn_zero_of_any_false (q : List Job) (c : String)
    (h : q.any (pollPred c) = false) : countPollIn q c = 0 := by
  unfold countPollIn
  rw [List.filter_eq_nil_iff.mpr]
  · rfl
  · intro j hj hpj
    have : q.any (pollPred c) = true := List.any_eq_true.mpr ⟨j, hj, hpj⟩
    rw [h] at this
    exact Bool.false_ne_true this

theorem countPollIn_append_single (q : List Job) (j : Job) (c : String) :
    countPollIn (q ++ [j]) c = countPollIn q c + (if pollPred c j then 1 else 0) := by
  unfold countPollIn
  rw [List.filter_append]
  by_cases hj : pollPred c j = true
  · simp [hj]
  · simp [hj]

theorem countPollIn_cons (q : List Job) (j : Job) (c : String) :
    countPollIn (j :: q) c = (if pollPred c j then 1 else 0) + countPollIn q c := by
  unfold countPollIn
  by_cases hj : pollPred c j = true
  · simp [List.filter_cons, hj]
    omega
  · simp [List.filter_cons, hj]

theorem countPollIn_tail_le (q : List Job) (j : Job) (c : String) :
    countPollIn q c ≤ countPollIn (j :: q) c := by
  rw [countPollIn_cons]
  omega

theorem removeFirstJob_sublist (q : List Job) (c : String) :
    (removeFirstJob q c).Sublist q := by
  induction q with
  | nil => exact List.Sublist.refl []
  | cons j rest ih =>
    unfold removeFirstJob
    by_cases hj : (j.chatId == c) = true
    · rw [if_pos hj]
      exact List.sublist_cons_self j rest
    · rw [if_neg hj]
      exact List.Sublist.cons₂ j ih

theorem countPollIn_removeFirst_le (q : List Job) (c c' : String) :
    countPollIn (removeFirstJob q c') c ≤ countPollIn q c := by
  unfold countPollIn
  exact List.Sublist.length_le (List.Sublist.filter _ (removeFirstJob_sublist q c'))

/-- Shape of the queue after a `beginActualPolling` call: unchanged, or a
fresh Poll Job pushed at the front under the no-duplicate guard. -/
theorem beginActualPolling_queue (s : Sys) (c : String) :
    (beginActualPolling s c).queue = s.queue
      ∨ (∃ pu jid, (beginActualPolling s c).queue
            = { type := JobType.poll, chatId := c, meetingPageUrl := pu, jobId := jid } :: s.queue
          ∧ s.queue.any (fun j => j.chatId == c && j.type != JobType.schedule) = false) := by
  unfold beginActualPolling
  cases hg : mapGet s.tickers c with
  | none => exact Or.inl rfl
  | some st =>
    dsimp only
    by_cases hp : st.isPolling = true
    · rw [if_pos hp]
      exact Or.inl rfl
    · rw [if_neg hp]
      by_cases hq : (s.queue.any fun j => j.chatId == c && j.type != JobType.schedule) = true
      · rw [if_pos hq]
        exact Or.inl rfl
      · rw [if_neg hq]
        refine Or.inr ⟨st.meetingPageUrl, s.nextJobId, rfl, ?_⟩
        cases hb : s.queue.any fun j => j.chatId == c && j.type != JobType.schedule with
        | true => exact absurd hb hq
        | false => rfl

/-- Shape of the queue after a fairness-scheduler tick: unchanged, or a
Poll Job appended under the no-duplicate guard. -/
theorem masterScheduler_queue (s : Sys) :
    (masterScheduler s).queue = s.queue
      ∨ (∃ c pu jid, (masterScheduler s).queue
            = s.queue ++ [{ type := JobType.poll, chatId := c, meetingPageUrl := pu, jobId := jid }]
          ∧ s.queue.any (fun j => j.chatId == c && j.type == JobType.poll) = false) := by
  unfold masterScheduler
  dsimp only
  split
  · exact Or.inl rfl
  · split
    · exact Or.inl rfl
    · rename_i found heq
      split
      · rename_i hcnd
        refine Or.inr ⟨found.1, _, s.nextJobId, rfl, ?_⟩
        simp only [Bool.and_eq_true, Bool.not_eq_true'] at hcnd
        exact hcnd.2
      · exact Or.inl rfl

theorem handleEvent_queue (c : String) (sk : Nat → Bool) (ev : EventRec) (st : TickerState)
    (acc : PRes) : (handleEvent c sk ev st acc).queue = acc.queue := by
  unfold handleEvent attemptSend
  dsimp only
  repeat' split
  all_goals rfl

theorem handleGameEnd_queue (c : String) (sk : Nat → Bool) (acc2 : PRes) :
    (handleGameEnd c sk acc2).queue = acc2.queue
      ∨ (handleGameEnd c sk acc2).queue = removeFirstJob acc2.queue c := by
  unfold handleGameEnd
  cases hg : mapGet acc2.tickers c with
  | none => exact Or.inl rfl
  | some stE =>
    dsimp only
    repeat' split
    all_goals first
      | exact Or.inl rfl
      | exact Or.inr rfl

theorem processLoop_queue (c : String) (sk : Nat → Bool) (l : List EventRec) (acc : PRes) :
    (processLoop c sk l acc).queue = acc.queue
      ∨ (processLoop c sk l acc).queue = removeFirstJob acc.queue c := by
  induction l generalizing acc with
  | nil => exact Or.inl rfl
  | cons ev rest ih =>
    cases hg : mapGet acc.tickers c with
    | none => rw [processLoop_cons_none c sk ev rest acc hg]; exact Or.inl rfl
    | some st =>
      by_cases hs : ev.idx ∈ st.seen
      · rw [processLoop_cons_seen c sk ev rest acc st hg hs]
        exact ih acc
      · rw [processLoop_cons_unseen c sk ev rest acc st hg hs]
        have hq2 : (handleEvent c sk ev st acc).queue = acc.queue := handleEvent_queue c sk ev st acc
        by_cases ht : (handleEvent c sk ev st acc).threw = true
        · rw [if_pos ht]
          exact Or.inl hq2
        · rw [if_neg ht]
          by_cases h16 : (ev.event == 16) = true
          · rw [if_pos h16]
            rcases handleGameEnd_queue c sk (handleEvent c sk ev st acc) with h | h
            · exact Or.inl (h.trans hq2)
            · rw [hq2] at h
              exact Or.inr h
          · rw [if_neg h16]
            rcases ih (handleEvent c sk ev st acc) with h | h
            · exact Or.inl (h.trans hq2)
            · rw [hq2] at h
              exact Or.inr h

theorem processEventsCore_queue (data : Option (List EventRec)) (c : String)
    (sk : Nat → Bool) (tks : List (String × TickerState)) (q : List Job) :
    (processEventsCore data c sk tks q).queue = q
      ∨ (processEventsCore data c sk tks q).queue = removeFirstJob q c := by
  cases data with
  | none => exact Or.inl rfl
  | some evs => exact processLoop_queue c sk (sortByIdx evs) { tickers := tks, queue := q }

theorem pollJobBody_queue (s : Sys) (job : Job) (st : TickerState) (o : WOracle) :
    (pollJobBody s job st o).queue = s.queue
      ∨ (pollJobBody s job st o).queue = removeFirstJob s.queue job.chatId := by
  unfold pollJobBody
  dsimp only
  repeat' split
  all_goals first
    | exact Or.inl rfl
    | exact processEventsCore_queue _ job.chatId o.sendOk _ s.queue

theorem scheduleJobBody_queue (s : Sys) (job : Job) (st : TickerState) (o : WOracle) :
    (scheduleJobBody s job st o).queue = s.queue
      ∨ (∃ pu jid, (scheduleJobBody s job st o).queue
            = { type := JobType.poll, chatId := job.chatId, meetingPageUrl := pu, jobId := jid }
                :: s.queue
          ∧ s.queue.any (fun j => j.chatId == job.chatId && j.type != JobType.schedule)
              = false) := by
  unfold scheduleJobBody
  dsimp only
  split
  · exact Or.inl rfl
  · exact beginActualPolling_queue _ job.chatId

theorem runWorkerFinish_queue (s : Sys) (job : Job) (o : WOracle) :
    (runWorkerFinish s job o).queue = s.queue
      ∨ (runWorkerFinish s job o).queue = removeFirstJob s.queue job.chatId
      ∨ (∃ pu jid, (runWorkerFinish s job o).queue
            = { type := JobType.poll, chatId := job.chatId, meetingPageUrl := pu, jobId := jid }
                :: s.queue
          ∧ s.queue.any (fun j => j.chatId == job.chatId && j.type != JobType.schedule)
              = false) := by
  unfold runWorkerFinish workerExit
  dsimp only
  split
  · exact Or.inl rfl
  · split
    · exact Or.inl rfl
    · split
      · split
        · exact Or.inl rfl
        · exact Or.inl rfl
      · split
        · rcases scheduleJobBody_queue s job _ o with h | ⟨pu, jid, h, hg⟩
          · exact Or.inl h
          · exact Or.inr (Or.inr ⟨pu, jid, h, hg⟩)
        · rcases pollJobBody_queue s job _ o with h | h
          · exact Or.inl h
          · exact Or.inr (Or.inl h)

theorem scheduleTickerDone_queue (s : Sys) (c u g : String) (mode : Mode) (o : SOracle) :
    (scheduleTickerDone s c u g mode o).queue = s.queue
      ∨ (∃ pu jid, (scheduleTickerDone s c u g mode o).queue
            = { type := JobType.poll, chatId := c, meetingPageUrl := pu, jobId := jid } :: s.queue
          ∧ s.queue.any (fun j => j.chatId == c && j.type != JobType.schedule) = false) := by
  unfold scheduleTickerDone
  dsimp only
  split
  · exact Or.inl rfl
  · split
    · exact Or.inl rfl
    · exact beginActualPolling_queue _ c

theorem any_poll_false_of_any_nonschedule_false (q : List Job) (c0 : String)
    (h : q.any (fun j => j.chatId == c0 && j.type != JobType.schedule) = false) :
    q.any (pollPred c0) = false := by
  cases hb : q.any (pollPred c0) with
  | false => rfl
  | true =>
    obtain ⟨j, hj, hpj⟩ := List.any_eq_true.mp hb
    unfold pollPred at hpj
    have h1 := (Bool.and_eq_true_iff.mp hpj).1
    have h2 := (Bool.and_eq_true_iff.mp hpj).2
    have htype : j.type = JobType.poll := eq_of_beq h2
    have : q.any (fun j => j.chatId == c0 && j.type != JobType.schedule) = true := by
      refine List.any_eq_true.mpr ⟨j, hj, ?_⟩
      rw [h1, htype]
      decide
    rw [h] at this
    exact absurd this Bool.false_ne_true

theorem countPollIn_le_one_cons_guard (q : List Job) (c0 pu : String) (jid : Nat) (c : String)
    (ih : ∀ c, countPollIn q c ≤ 1)
    (hg : q.any (fun j => j.chatId == c0 && j.type != JobType.schedule) = false) :
    countPollIn ({ type := JobType.poll, chatId := c0, meetingPageUrl := pu, jobId := jid } :: q)
      c ≤ 1 := by
  rw [countPollIn_cons]
  by_cases hj : pollPred c { type := JobType.poll, chatId := c0, meetingPageUrl := pu, jobId := jid } = true
  · have hc : c0 = c := eq_of_beq (Bool.and_eq_true_iff.mp hj).1
    subst hc
    rw [countPollIn_zero_of_any_false q c0 (any_poll_false_of_any_nonschedule_false q c0 hg)]
    simp [hj]
  · simp only [Bool.not_eq_true] at hj
    simp [hj]
    exact ih c

theorem countPollIn_le_one_append_guard (q : List Job) (c0 pu : String) (jid : Nat) (c : String)
    (ih : ∀ c, countPollIn q c ≤ 1)
    (hg : q.any (fun j => j.chatId == c0 && j.type == JobType.poll) = false) :
    countPollIn (q ++ [{ type := JobType.poll, chatId := c0, meetingPageUrl := pu, jobId := jid }])
      c ≤ 1 := by
  rw [countPollIn_append_single]
  by_cases hj : pollPred c { type := JobType.poll, chatId := c0, meetingPageUrl := pu, jobId := jid } = true
  · have hc : c0 = c := eq_of_beq (Bool.and_eq_true_iff.mp hj).1
    subst hc
    rw [countPollIn_zero_of_any_false q c0 hg]
    simp [hj]
  · simp only [Bool.not_eq_true] at hj
    simp [hj]
    exact ih c

/-- C1 (amended): in every reachable state, every channel has at most one
Poll Job in the pending queue — all three enqueue sites are guarded by a
queue scan for the channel. -/
theorem queue_single_flight_invariant (s : Sys) (hs : Reachable s) (c : String) :
    countQueuePoll s c ≤ 1 := by
  have main : ∀ c, countPollIn s.queue c ≤ 1 := by
    induction hs with
    | init => intro c; exact Nat.zero_le 1
    | step hr hstep ih =>
      rename_i s1 t1
      intro c
      cases hstep with
      | master =>
        rcases masterScheduler_queue s1 with h | ⟨c0, pu, jid, h, hg⟩
        · rw [h]; exact ih c
        · rw [h]; exact countPollIn_le_one_append_guard s1.queue c0 pu jid c ih hg
      | dispatch =>
        unfold dispatcherLoop
        cases hq : s1.queue with
        | nil => simp only [hq]; exact Nat.zero_le 1
        | cons j rest =>
          simp only [hq]
          split
          · calc countPollIn rest c
                ≤ countPollIn (j :: rest) c := countPollIn_tail_le rest j c
              _ ≤ 1 := by rw [← hq]; exact ih c
          · exact ih c
      | promote c1 =>
        rcases beginActualPolling_queue s1 c1 with h | ⟨pu, jid, h, hg⟩
        · rw [h]; exact ih c
        · rw [h]; exact countPollIn_le_one_cons_guard s1.queue c1 pu jid c ih hg
      | complete job o hmem =>
        rcases runWorkerFinish_queue s1 job o with h | h | ⟨pu, jid, h, hg⟩
        · rw [h]; exact ih c
        · rw [h]
          exact Nat.le_trans (countPollIn_removeFirst_le s1.queue c job.chatId) (ih c)
        · rw [h]; exact countPollIn_le_one_cons_guard s1.queue job.chatId pu jid c ih hg
      | create c1 u g mode o =>
        rcases scheduleTickerDone_queue s1 c1 u g mode o with h | ⟨pu, jid, h, hg⟩
        · rw [h]; exact ih c
        · rw [h]; exact countPollIn_le_one_cons_guard s1.queue c1 pu jid c ih hg
  exact main c

/-- Witness for `queue_single_flight_invariant` at the reachable
counterexample state: even there, the queue itself holds one Poll Job. -/
theorem queue_single_flight_invariant_witness :
    countQueuePoll sysC1c "g" ≤ 1 ∧ countQueuePoll sysC1c "g" = 1 := by
  constructor
  · exact queue_single_flight_invariant sysC1c
      (Reachable.step
        (Reachable.step
          (Reachable.step Reachable.init (Step.create _ "g" "u" "grp" Mode.live {}))
          (Step.dispatch _))
        (Step.master _)) "g"
  · decide

/-! ### C4: version-token idempotence of a Poll Job -/

/-- `handleEvent` only extends `seen` (and possibly the recap buffer) of
the channel's entry; version token, mode and polling status survive. -/
theorem handleEvent_mapGet (c : String) (sk : Nat → Bool) (ev : EventRec) (st : TickerState)
    (acc : PRes) :
    ∃ st1, mapGet (handleEvent c sk ev st acc).tickers c = some st1
      ∧ st1.lastVersionUid = st.lastVersionUid ∧ st1.mode = st.mode
      ∧ st1.isPolling = st.isPolling ∧ st1.seen = st.seen ++ [ev.idx]
      ∧ (st1.recapEvents = st.recapEvents ∨ st1.recapEvents = st.recapEvents ++ [ev]) := by
  unfold handleEvent attemptSend
  dsimp only
  repeat' split
  all_goals first
    | exact ⟨_, mapGet_mapSet_self _ c _, rfl, rfl, rfl, rfl, Or.inl rfl⟩
    | exact ⟨_, mapGet_mapSet_self _ c _, rfl, rfl, rfl, rfl, Or.inr rfl⟩

/-- The game-end block stops the ticker but keeps its version token, mode
and seen-set. -/
theorem handleGameEnd_mapGet (c : String) (sk : Nat → Bool) (acc2 : PRes) (st2 : TickerState)
    (h : mapGet acc2.tickers c = some st2) :
    ∃ st3, mapGet (handleGameEnd c sk acc2).tickers c = some st3
      ∧ st3.lastVersionUid = st2.lastVersionUid ∧ st3.mode = st2.mode
      ∧ st3.seen = st2.seen := by
  unfold handleGameEnd
  rw [h]
  dsimp only
  by_cases hf : (st2.mode == some Mode.recap && !st2.recapEvents.isEmpty) = true
  · rw [if_pos hf]
    rw [sendRecap_not_polling
      (mapSet acc2.tickers c { st2 with isPolling := false, recapIntervalId := none }) c sk
      acc2.attempts { st2 with isPolling := false, recapIntervalId := none }
      (mapGet_mapSet_self acc2.tickers c _) rfl]
    dsimp only
    rw [if_neg (by simp)]
    exact ⟨_, mapGet_mapSet_self _ c _, rfl, rfl, rfl⟩
  · rw [if_neg hf]
    dsimp only
    split
    · exact ⟨_, mapGet_mapSet_self _ c _, rfl, rfl, rfl⟩
    · exact ⟨_, mapGet_mapSet_self _ c _, rfl, rfl, rfl⟩

/-- The event loop never changes the channel entry's version token or
mode, and never removes the entry. -/
theorem processLoop_lastVersion (c : String) (sk : Nat → Bool) (l : List EventRec)
    (acc : PRes) (st0 : TickerState) (h : mapGet acc.tickers c = some st0) :
    ∃ st1, mapGet (processLoop c sk l acc).tickers c = some st1
      ∧ st1.lastVersionUid = st0.lastVersionUid ∧ st1.mode = st0.mode := by
  induction l generalizing acc st0 with
  | nil => exact ⟨st0, h, rfl, rfl⟩
  | cons ev rest ih =>
    by_cases hs : ev.idx ∈ st0.seen
    · rw [processLoop_cons_seen c sk ev rest acc st0 h hs]
      exact ih acc st0 h
    · rw [processLoop_cons_unseen c sk ev rest acc st0 h hs]
      obtain ⟨st1, hget1, hver1, hmode1, _, _, _⟩ := handleEvent_mapGet c sk ev st0 acc
      by_cases ht : (handleEvent c sk ev st0 acc).threw = true
      · rw [if_pos ht]
        exact ⟨st1, hget1, hver1, hmode1⟩
      · rw [if_neg ht]
        by_cases h16 : (ev.event == 16) = true
        · rw [if_pos h16]
          obtain ⟨st3, hget3, hver3, hmode3, _⟩ :=
            handleGameEnd_mapGet c sk (handleEvent c sk ev st0 acc) st1 hget1
          exact ⟨st3, hget3, hver3.trans hver1, hmode3.trans hmode1⟩
        · rw [if_neg h16]
          obtain ⟨st2, hget2, hver2, hmode2⟩ := ih (handleEvent c sk ev st0 acc) st1 hget1
          exact ⟨st2, hget2, hver2.trans hver1, hmode2.trans hmode1⟩

theorem processEventsCore_lastVersion (data : Option (List EventRec)) (c : String)
    (sk : Nat → Bool) (tks : List (String × TickerState)) (q : List Job) (st0 : TickerState)
    (h : mapGet tks c = some st0) :
    ∃ st1, mapGet (processEventsCore data c sk tks q).tickers c = some st1
      ∧ st1.lastVersionUid = st0.lastVersionUid ∧ st1.mode = st0.mode := by
  cases data with
  | none => exact ⟨st0, h, rfl, rfl⟩
  | some evs => exact processLoop_lastVersion c sk (sortByIdx evs) _ st0 h

/-- `backfillMeta` only touches `teamNames` / `halftimeLength`. -/
theorem backfillMeta_fields (st : TickerState) (g : GameData) :
    (backfillMeta st g).lastVersionUid = st.lastVersionUid
      ∧ (backfillMeta st g).seen = st.seen
      ∧ (backfillMeta st g).recapEvents = st.recapEvents
      ∧ (backfillMeta st g).isPolling = st.isPolling
      ∧ (backfillMeta st g).mode = st.mode := by
  unfold backfillMeta
  dsimp only
  split
  · split
    · exact ⟨rfl, rfl, rfl, rfl, rfl⟩
    · exact ⟨rfl, rfl, rfl, rfl, rfl⟩
  · split
    · exact ⟨rfl, rfl, rfl, rfl, rfl⟩
    · exact ⟨rfl, rfl, rfl, rfl, rfl⟩

/-- A poll body that sees an unchanged version token leaves the channel
entry's essential fields, the log and the queue unchanged (only the
metadata backfill is applied). -/
theorem pollJobBody_version_same (sys : Sys) (job : Job) (st : TickerState) (o : WOracle)
    (hver : o.gameData.versionUid = st.lastVersionUid) :
    ∃ st', pollJobBody sys job st o
        = { sys with tickers := mapSet sys.tickers job.chatId st' }
      ∧ st'.seen = st.seen ∧ st'.recapEvents = st.recapEvents
      ∧ st'.lastVersionUid = st.lastVersionUid ∧ st'.isPolling = st.isPolling
      ∧ st'.mode = st.mode := by
  obtain ⟨hbv, hbs, hbr, hbp, hbm⟩ := backfillMeta_fields st o.gameData
  unfold pollJobBody
  dsimp only
  cases hvu : o.gameData.versionUid with
  | none =>
    exact ⟨backfillMeta st o.gameData, rfl, hbs, hbr, hbv, hbp, hbm⟩
  | some v =>
    have hl : st.lastVersionUid = some v := by rw [← hver, hvu]
    dsimp only
    rw [if_neg ?_]
    · exact ⟨backfillMeta st o.gameData, rfl, hbs, hbr, hbv, hbp, hbm⟩
    · rw [hbv, hl]
      simp

/-- C4: if the fetched metadata's version token equals the ticker's
`lastVersionUid`, the Poll Job is a no-op — no event list is fetched,
nothing is delivered or buffered (the log is unchanged), the queue is
unchanged, and the ticker's `seen`, `recapEvents`, `lastVersionUid`,
polling status and mode are untouched; consequently feeding the same
(non-empty) token twice yields zero new deliveries the second time. -/
theorem poll_version_idempotent :
    (∀ (sys : Sys) (job : Job) (o : WOracle) (st : TickerState),
        mapGet sys.tickers job.chatId = some st → job.type = JobType.poll →
        o.gameData.versionUid = st.lastVersionUid →
          (∃ st', mapGet (runWorkerFinish sys job o).tickers job.chatId = some st'
              ∧ st'.seen = st.seen ∧ st'.recapEvents = st.recapEvents
              ∧ st'.lastVersionUid = st.lastVersionUid ∧ st'.isPolling = st.isPolling
              ∧ st'.mode = st.mode)
            ∧ (runWorkerFinish sys job o).log = sys.log
            ∧ (runWorkerFinish sys job o).queue = sys.queue)
      ∧ (∀ (sys : Sys) (job job2 : Job) (o o2 : WOracle) (st : TickerState) (v : String),
          mapGet sys.tickers job.chatId = some st → job.type = JobType.poll →
          st.isPolling = true → o.fetchOk = true → o.gameData.versionUid = some v →
          v ≠ "" → job2.chatId = job.chatId → job2.type = JobType.poll →
          o2.gameData.versionUid = some v →
            (runWorkerFinish (runWorkerFinish sys job o) job2 o2).log
              = (runWorkerFinish sys job o).log) := by
  have hA : ∀ (sys : Sys) (job : Job) (o : WOracle) (st : TickerState),
      mapGet sys.tickers job.chatId = some st → job.type = JobType.poll →
      o.gameData.versionUid = st.lastVersionUid →
        (∃ st', mapGet (runWorkerFinish sys job o).tickers job.chatId = some st'
            ∧ st'.seen = st.seen ∧ st'.recapEvents = st.recapEvents
            ∧ st'.lastVersionUid = st.lastVersionUid ∧ st'.isPolling = st.isPolling
            ∧ st'.mode = st.mode)
          ∧ (runWorkerFinish sys job o).log = sys.log
          ∧ (runWorkerFinish sys job o).queue = sys.queue := by
    intro sys job o st hget htype hver
    unfold runWorkerFinish workerExit
    rw [hget]
    dsimp only
    rw [htype]
    by_cases hp : st.isPolling = true
    · rw [if_neg (by simp [hp])]
      by_cases hf : o.fetchOk = true
      · rw [if_neg (by simp [hf])]
        obtain ⟨st', heq, h1, h2, h3, h4, h5⟩ := pollJobBody_version_same sys job st o hver
        dsimp only
        rw [heq]
        exact ⟨⟨st', mapGet_mapSet_self _ _ _, h1, h2, h3, h4, h5⟩, rfl, rfl⟩
      · rw [if_pos (by simp [hf]), if_neg (by decide)]
        exact ⟨⟨st, hget, rfl, rfl, rfl, rfl, rfl⟩, rfl, rfl⟩
    · rw [if_pos (by simp [hp])]
      exact ⟨⟨st, hget, rfl, rfl, rfl, rfl, rfl⟩, rfl, rfl⟩
  refine ⟨hA, ?_⟩
  intro sys job job2 o o2 st v hget htype hpoll hfetch hvu hvne h2chat h2type h2vu
  obtain ⟨hbv, hbs, hbr, hbp, hbm⟩ := backfillMeta_fields st o.gameData
  have hfirst : ∃ st1, mapGet (runWorkerFinish sys job o).tickers job.chatId = some st1
      ∧ st1.lastVersionUid = some v := by
    unfold runWorkerFinish workerExit
    rw [hget]
    dsimp only
    rw [htype]
    rw [if_neg (by simp [hpoll])]
    rw [if_neg (by simp [hfetch])]
    dsimp only
    unfold pollJobBody
    dsimp only
    rw [hvu]
    dsimp only
    by_cases hchanged : (v != "" && some v != (backfillMeta st o.gameData).lastVersionUid) = true
    · rw [if_pos hchanged]
      cases hed : o.eventsData with
      | none =>
        exact ⟨_, mapGet_mapSet_self _ _ _, rfl⟩
      | some data =>
        obtain ⟨st1, hg1, hv1, _⟩ := processEventsCore_lastVersion data job.chatId o.sendOk _ _
          { backfillMeta st o.gameData with lastVersionUid := some v }
          (mapGet_mapSet_self (mapSet sys.tickers job.chatId (backfillMeta st o.gameData))
            job.chatId _)
        exact ⟨st1, hg1, hv1⟩
    · rw [if_neg hchanged]
      have hsame : (backfillMeta st o.gameData).lastVersionUid = some v := by
        by_cases hx : (some v != (backfillMeta st o.gameData).lastVersionUid) = true
        · exfalso
          apply hchanged
          rw [hx]
          simp [hvne]
        · have hx0 : (some v != (backfillMeta st o.gameData).lastVersionUid) = false := by
            cases hb : (some v != (backfillMeta st o.gameData).lastVersionUid) with
            | true => exact absurd hb hx
            | false => rfl
          rw [bne, Bool.not_eq_false'] at hx0
          exact (eq_of_beq hx0).symm
      exact ⟨backfillMeta st o.gameData, mapGet_mapSet_self _ _ _, hsame⟩
  obtain ⟨st1, hg1, hv1⟩ := hfirst
  exact (hA (runWorkerFinish sys job o) job2 o2 st1 (by rw [h2chat]; exact hg1) h2type
    (by rw [h2vu, hv1])).2.1

/-! ### C9 (amended): recap flush contract -/

theorem sorted_head_min (l : List EventRec) (hs : List.Sorted evSecLe l) (h : EventRec)
    (hh : l.head? = some h) : ∀ e ∈ l, h.second ≤ e.second := by
  cases l with
  | nil => nomatch hh
  | cons x t =>
    have hx : x = h := by simpa using hh
    subst hx
    intro e he
    rcases List.mem_cons.mp he with he1 | he2
    · rw [he1]
    · exact List.rel_of_sorted_cons hs e he2

theorem sorted_getLast_max :
    ∀ (l : List EventRec), List.Sorted evSecLe l → ∀ lst, l.getLast? = some lst →
      ∀ e ∈ l, e.second ≤ lst.second := by
  intro l
  induction l with
  | nil => intro _ lst hl; nomatch hl
  | cons x t ih =>
    intro hs lst hl e he
    cases t with
    | nil =>
      have h1 : x = lst := by simpa using hl
      have h2 : e = x := by simpa using he
      rw [h2, h1]
    | cons y t2 =>
      have hl2 : (y :: t2).getLast? = some lst := by
        rw [← List.getLast?_cons_cons]
        exact hl
      rcases List.mem_cons.mp he with he1 | he2
      · subst he1
        obtain ⟨hne, heq⟩ := List.mem_getLast?_eq_getLast (show lst ∈ (y :: t2).getLast? from hl2)
        have hmem : lst ∈ y :: t2 := heq ▸ List.getLast_mem hne
        exact List.rel_of_sorted_cons hs lst hmem
      · exact ih hs.of_cons lst hl2 e he2

theorem recapSorted_perm (st : TickerState) : (recapSorted st).Perm st.recapEvents :=
  List.perm_insertionSort evSecLe st.recapEvents

theorem recapSorted_sorted (st : TickerState) : List.Sorted evSecLe (recapSorted st) :=
  List.sorted_insertionSort evSecLe st.recapEvents

/-- C9 (amended): the flush contract as implemented.  A missing ticker is
left untouched; a non-polling ticker or an empty buffer yields no send and
an empty buffer; a polling ticker with a non-empty buffer, team names set
and at least one non-empty formatted line sends exactly one message whose
covered time span is `Minute ⌊min/60⌋ - ⌈max/60⌉` over the buffered
events' in-match seconds, with the per-event lines joined into it, and the
buffer is cleared independently of the send outcome; and every
non-throwing flush leaves an empty buffer (or no ticker at all). -/
theorem recap_flush_amended :
    (∀ (tks : List (String × TickerState)) (c : String) (sk : Nat → Bool) (att : Nat),
        mapGet tks c = none →
          sendRecapMessageCore tks c sk att = { tickers := tks, attempts := att })
      ∧ (∀ (tks : List (String × TickerState)) (c : String) (sk : Nat → Bool) (att : Nat)
            (st : TickerState),
          mapGet tks c = some st → (st.isPolling = false ∨ st.recapEvents = []) →
            sendRecapMessageCore tks c sk att
              = { tickers := mapSet tks c { st with recapEvents := [] }, attempts := att })
      ∧ (∀ (tks : List (String × TickerState)) (c : String) (sk : Nat → Bool) (att : Nat)
            (st : TickerState) (tn : String × String),
          mapGet tks c = some st → st.isPolling = true → st.recapEvents ≠ [] →
          st.teamNames = some tn → validRecapLines st ≠ [] →
            ∃ hEv lEv, hEv ∈ st.recapEvents ∧ lEv ∈ st.recapEvents
              ∧ (∀ e ∈ st.recapEvents, hEv.second ≤ e.second ∧ e.second ≤ lEv.second)
              ∧ (sendRecapMessageCore tks c sk att).sent
                  = some (recapFinalMessage tn
                      (recapTimeRangeTitle (hEv.second / 60) ((lEv.second + 59) / 60))
                      (validRecapLines st))
              ∧ (∃ st', mapGet (sendRecapMessageCore tks c sk att).tickers c = some st'
                  ∧ st'.recapEvents = [])
              ∧ (sendRecapMessageCore tks c sk att).threw = false)
      ∧ (∀ (tks : List (String × TickerState)) (c : String) (sk : Nat → Bool) (att : Nat)
            (st : TickerState),
          mapGet tks c = some st → (sendRecapMessageCore tks c sk att).threw = false →
            ∃ st', mapGet (sendRecapMessageCore tks c sk att).tickers c = some st'
              ∧ st'.recapEvents = []) := by
  refine ⟨?_, ?_, ?_, ?_⟩
  · intro tks c sk att hget
    unfold sendRecapMessageCore
    rw [hget]
  · intro tks c sk att st hget hcond
    unfold sendRecapMessageCore
    rw [hget]
    dsimp only
    rw [if_pos ?_]
    rcases hcond with h | h
    · simp [h]
    · simp [h]
  · intro tks c sk att st tn hget hpoll hne htn hlines
    have hsortne : recapSorted st ≠ [] := by
      intro hc
      apply hne
      have hlen := (recapSorted_perm st).length_eq
      rw [hc] at hlen
      exact List.length_eq_zero.mp hlen.symm
    obtain ⟨hEv, trest, hsort⟩ : ∃ h t, recapSorted st = h :: t := by
      cases hx : recapSorted st with
      | nil => exact absurd hx hsortne
      | cons a b => exact ⟨a, b, rfl⟩
    obtain ⟨lEv, hlast⟩ : ∃ lst, (recapSorted st).getLast? = some lst := by
      rw [hsort]
      cases trest with
      | nil => exact ⟨hEv, rfl⟩
      | cons y t2 => exact ⟨(y :: t2).getLast (List.cons_ne_nil y t2),
          by rw [List.getLast?_cons_cons]; exact List.getLast?_eq_getLast_of_ne_nil _⟩
    have hhead : (recapSorted st).head? = some hEv := by rw [hsort]; rfl
    have hmin := sorted_head_min (recapSorted st) (recapSorted_sorted st) hEv hhead
    have hmax := sorted_getLast_max (recapSorted st) (recapSorted_sorted st) lEv hlast
    refine ⟨hEv, lEv, ?_, ?_, ?_, ?_, ?_, ?_⟩
    · exact (recapSorted_perm st).mem_iff.mp (hsort ▸ List.mem_cons_self hEv trest)
    · obtain ⟨hne2, heq⟩ := List.mem_getLast?_eq_getLast
        (show lEv ∈ (recapSorted st).getLast? from hlast)
      exact (recapSorted_perm st).mem_iff.mp (heq ▸ List.getLast_mem hne2)
    · intro e he
      have he2 : e ∈ recapSorted st := (recapSorted_perm st).mem_iff.mpr he
      exact ⟨hmin e he2, hmax e he2⟩
    · unfold sendRecapMessageCore
      rw [hget]
      dsimp only
      rw [if_neg (by simp [hpoll, hne])]
      rw [if_neg (by simp [hlines])]
      rw [show ({ st with recapEvents := recapSorted st } : TickerState).teamNames
          = some tn from htn]
      dsimp only
      rw [hhead, hlast]
      rfl
    · unfold sendRecapMessageCore
      rw [hget]
      dsimp only
      rw [if_neg (by simp [hpoll, hne])]
      rw [if_neg (by simp [hlines])]
      rw [show ({ st with recapEvents := recapSorted st } : TickerState).teamNames
          = some tn from htn]
      exact ⟨_, mapGet_mapSet_self _ c _, rfl⟩
    · unfold sendRecapMessageCore
      rw [hget]
      dsimp only
      rw [if_neg (by simp [hpoll, hne])]
      rw [if_neg (by simp [hlines])]
      rw [show ({ st with recapEvents := recapSorted st } : TickerState).teamNames
          = some tn from htn]
  · intro tks c sk att st hget hthrew
    unfold sendRecapMessageCore at hthrew ⊢
    rw [hget] at hthrew ⊢
    dsimp only at hthrew ⊢
    by_cases h1 : (!st.isPolling || st.recapEvents.isEmpty) = true
    · rw [if_pos h1]
      exact ⟨_, mapGet_mapSet_self _ c _, rfl⟩
    · rw [if_neg h1] at hthrew ⊢
      by_cases h2 : (validRecapLines st).isEmpty = true
      · rw [if_pos h2]
        exact ⟨_, mapGet_mapSet_self _ c _, rfl⟩
      · rw [if_neg h2] at hthrew ⊢
        cases htn : st.teamNames with
        | none =>
          rw [htn] at hthrew
          exact absurd hthrew (by simp)
        | some tn =>
          exact ⟨_, mapGet_mapSet_self _ c _, rfl⟩

/-- Witness for `recap_flush_amended`: flushing a polling recap ticker
with two buffered goals sends one message and clears the buffer. -/
theorem recap_flush_amended_witness :
    (mapGet [("g", stC9)] "g" = some stC9 ∧ stC9.isPolling = false
      ∧ sendRecapMessageCore [("g", stC9)] "g" (fun _ => true) 0
          = { tickers := mapSet [("g", stC9)] "g" { stC9 with recapEvents := [] },
              attempts := 0 })
    ∧ (∃ st', mapGet (sendRecapMessageCore [("g", stC9p)] "g"
            (fun _ => true) 0).tickers "g" = some st' ∧ st'.recapEvents = []) := by
  constructor
  · exact ⟨rfl, rfl,
      recap_flush_amended.2.1 [("g", stC9)] "g" (fun _ => true) 0 stC9 rfl (Or.inl rfl)⟩
  · exact recap_flush_amended.2.2.2 [("g", stC9p)] "g"
      (fun _ => true) 0 stC9p rfl (by decide)

/-- Witness for `poll_version_idempotent` at a concrete ticker. -/
theorem poll_version_idempotent_witness :
    mapGet sysV.tickers "g" = some stV
      ∧ (runWorkerFinish sysV jobV oV).log = sysV.log
      ∧ (runWorkerFinish sysV jobV oV).queue = sysV.queue
      ∧ (runWorkerFinish (runWorkerFinish sysV jobV oV) jobV oV).log
          = (runWorkerFinish sysV jobV oV).log := by
  refine ⟨rfl, ?_, ?_, ?_⟩
  · exact (poll_version_idempotent.1 sysV jobV oV stV rfl rfl rfl).2.1
  · exact (poll_version_idempotent.1 sysV jobV oV stV rfl rfl rfl).2.2
  · exact poll_version_idempotent.2 sysV jobV jobV oV oV stV "v1" rfl rfl rfl rfl rfl
      (by decide) rfl rfl rfl

/-! ### Trace structure of the event loop (shared by the batch lemmas) -/

theorem markIdxs_cons_mark (i cd : Nat) (t : List Action) :
    markIdxs (Action.mark i cd :: t) = i :: markIdxs t := rfl

theorem markIdxs_append (l1 l2 : List Action) :
    markIdxs (l1 ++ l2) = markIdxs l1 ++ markIdxs l2 :=
  List.filterMap_append l1 l2 _

theorem traceIdxs_append (l1 l2 : List Action) :
    traceIdxs (l1 ++ l2) = traceIdxs l1 ++ traceIdxs l2 :=
  List.filterMap_append l1 l2 _

theorem markIdxs_eq_nil (tl : List Action) (h : ∀ a ∈ tl, isMarkA a = false) :
    markIdxs tl = [] := by
  induction tl with
  | nil => rfl
  | cons a t ih =>
    have ha := h a (List.mem_cons_self a t)
    have ht := ih (fun b hb => h b (List.mem_cons_of_mem a hb))
    cases a with
    | mark i cd => exact absurd ha (by simp [isMarkA])
    | send i m => exact ht
    | buffer i => exact ht
    | flushSend m => exact ht
    | fetch => exact ht

theorem mem_markIdxs (j : Nat) (l : List Action) :
    j ∈ markIdxs l ↔ ∃ cd, Action.mark j cd ∈ l := by
  unfold markIdxs
  rw [List.mem_filterMap]
  constructor
  · rintro ⟨a, ha, hf⟩
    cases a with
    | mark i cd =>
      refine ⟨cd, ?_⟩
      have : i = j := by simpa using hf
      rw [← this]; exact ha
    | send i m => simp at hf
    | buffer i => simp at hf
    | flushSend m => simp at hf
    | fetch => simp at hf
  · rintro ⟨cd, h⟩
    exact ⟨Action.mark j cd, h, rfl⟩

theorem mem_traceIdxs (j : Nat) (l : List Action) :
    j ∈ traceIdxs l ↔ ∃ a ∈ l, actionIdx a = some j := List.mem_filterMap

theorem markIdxs_subset_traceIdxs (j : Nat) (l : List Action) (h : j ∈ markIdxs l) :
    j ∈ traceIdxs l := by
  obtain ⟨cd, hm⟩ := (mem_markIdxs j l).mp h
  exact (mem_traceIdxs j l).mpr ⟨Action.mark j cd, hm, rfl⟩

/-- `handleEvent` appends `mark` first and then at most one `send` or
`buffer` action of the same event, to the trace. -/
theorem handleEvent_trace_shape (c : String) (sk : Nat → Bool) (ev : EventRec)
    (st : TickerState) (acc : PRes) :
    ∃ tl, (handleEvent c sk ev st acc).trace
        = acc.trace ++ (Action.mark ev.idx ev.event :: tl)
      ∧ ∀ a ∈ tl, actionIdx a = some ev.idx ∧ isMarkA a = false := by
  unfold handleEvent attemptSend
  dsimp only
  repeat' split
  all_goals first
    | exact ⟨[], rfl, by simp⟩
    | exact ⟨[Action.send ev.idx (formatEvent ev st)],
        List.append_assoc acc.trace [Action.mark ev.idx ev.event]
          [Action.send ev.idx (formatEvent ev st)],
        by simp [actionIdx, isMarkA]⟩
    | exact ⟨[Action.buffer ev.idx],
        List.append_assoc acc.trace [Action.mark ev.idx ev.event] [Action.buffer ev.idx],
        by simp [actionIdx, isMarkA]⟩

theorem handleEvent_anyNew (c : String) (sk : Nat → Bool) (ev : EventRec)
    (st : TickerState) (acc : PRes) :
    (handleEvent c sk ev st acc).anyNew = true := by
  unfold handleEvent attemptSend
  dsimp only
  repeat' split
  all_goals rfl

/-- Master description of one `processEvents` loop run over a sorted
batch: the trace grows by a block `Δ` of actions; the channel entry
survives with `seen` extended by exactly the newly marked ids; marks are
strictly ascending, were unseen before, and come from the batch; every
action of `Δ` concerns a marked id; every delivery/buffer action is
preceded in `Δ` by the mark of its id; and the novelty flag is set iff
some id was marked. -/
theorem processLoop_master (c : String) (sk : Nat → Bool) (l : List EventRec)
    (acc : PRes) (st0 : TickerState)
    (h : mapGet acc.tickers c = some st0) (hsort : List.Sorted evIdxLe l) :
    ∃ Δ st1,
      (processLoop c sk l acc).trace = acc.trace ++ Δ
      ∧ mapGet (processLoop c sk l acc).tickers c = some st1
      ∧ st1.seen = st0.seen ++ markIdxs Δ
      ∧ List.Sorted (fun a b => a < b) (markIdxs Δ)
      ∧ (∀ j ∈ markIdxs Δ, j ∉ st0.seen ∧ ∃ e ∈ l, e.idx = j)
      ∧ (∀ a ∈ Δ, ∃ j, actionIdx a = some j ∧ j ∈ markIdxs Δ)
      ∧ (∀ a ∈ Δ, isMarkA a = false →
          ∃ j cd, actionIdx a = some j ∧ List.Sublist [Action.mark j cd, a] Δ)
      ∧ (processLoop c sk l acc).anyNew = (acc.anyNew || !(markIdxs Δ).isEmpty) := by
  induction l generalizing acc st0 with
  | nil =>
    refine ⟨[], st0, by simp [processLoop_nil], h, by simp [markIdxs], ?_, ?_, ?_, ?_, ?_⟩
    · simp [markIdxs]
    · intro j hj; exact absurd hj (by simp [markIdxs])
    · intro a ha; exact absurd ha (List.not_mem_nil a)
    · intro a ha; exact absurd ha (List.not_mem_nil a)
    · simp [processLoop_nil, markIdxs]
  | cons ev rest ih =>
    have hsort2 : List.Sorted evIdxLe rest := (List.sorted_cons.mp hsort).2
    have hhead : ∀ b ∈ rest, ev.idx ≤ b.idx := (List.sorted_cons.mp hsort).1
    by_cases hs : ev.idx ∈ st0.seen
    · rw [processLoop_cons_seen c sk ev rest acc st0 h hs]
      obtain ⟨Δ, st1, h1, h2, h3, h4, h5, h6, h7, h8⟩ := ih acc st0 h hsort2
      refine ⟨Δ, st1, h1, h2, h3, h4, ?_, h6, h7, h8⟩
      intro j hj
      obtain ⟨e, he, hei⟩ := (h5 j hj).2
      exact ⟨(h5 j hj).1, e, List.mem_cons_of_mem ev he, hei⟩
    · rw [processLoop_cons_unseen c sk ev rest acc st0 h hs]
      obtain ⟨tl, htr, htl⟩ := handleEvent_trace_shape c sk ev st0 acc
      obtain ⟨st1, hget1, _, _, _, hseen1, _⟩ := handleEvent_mapGet c sk ev st0 acc
      have hanew : (handleEvent c sk ev st0 acc).anyNew = true :=
        handleEvent_anyNew c sk ev st0 acc
      have hmtl : markIdxs tl = [] := markIdxs_eq_nil tl (fun a ha => (htl a ha).2)
      have hmB : markIdxs (Action.mark ev.idx ev.event :: tl) = [ev.idx] := by
        rw [markIdxs_cons_mark, hmtl]
      have hstop : ∀ r, r = handleEvent c sk ev st0 acc →
          r.trace = (handleEvent c sk ev st0 acc).trace →
          mapGet r.tickers c = some st1 → r.anyNew = true →
          ∃ Δ st1x,
            r.trace = acc.trace ++ Δ
            ∧ mapGet r.tickers c = some st1x
            ∧ st1x.seen = st0.seen ++ markIdxs Δ
            ∧ List.Sorted (fun a b => a < b) (markIdxs Δ)
            ∧ (∀ j ∈ markIdxs Δ, j ∉ st0.seen ∧ ∃ e ∈ ev :: rest, e.idx = j)
            ∧ (∀ a ∈ Δ, ∃ j, actionIdx a = some j ∧ j ∈ markIdxs Δ)
            ∧ (∀ a ∈ Δ, isMarkA a = false →
                ∃ j cd, actionIdx a = some j ∧ List.Sublist [Action.mark j cd, a] Δ)
            ∧ r.anyNew = (acc.anyNew || !(markIdxs Δ).isEmpty) := by
        intro r hr hrt hrg hra
        refine ⟨Action.mark ev.idx ev.event :: tl, st1, hrt.trans htr, hrg, ?_, ?_, ?_, ?_, ?_, ?_⟩
        · rw [hmB]; exact hseen1
        · rw [hmB]; exact List.sorted_singleton ev.idx
        · intro j hj
          rw [hmB, List.mem_singleton] at hj
          subst hj
          exact ⟨hs, ev, List.mem_cons_self ev rest, rfl⟩
        · intro a ha
          rw [hmB]
          rcases List.mem_cons.mp ha with ha1 | ha2
          · subst ha1; exact ⟨ev.idx, rfl, List.mem_singleton_self ev.idx⟩
          · exact ⟨ev.idx, (htl a ha2).1, List.mem_singleton_self ev.idx⟩
        · intro a ha hnm
          rcases List.mem_cons.mp ha with ha1 | ha2
          · subst ha1; exact absurd hnm (by simp [isMarkA])
          · exact ⟨ev.idx, ev.event, (htl a ha2).1,
              List.Sublist.cons₂ _ (List.singleton_sublist.mpr ha2)⟩
        · rw [hmB, hra]; simp
      by_cases ht : (handleEvent c sk ev st0 acc).threw = true
      · rw [if_pos ht]
        exact hstop _ rfl rfl hget1 hanew
      · rw [if_neg ht]
        have ht2 : (handleEvent c sk ev st0 acc).threw = false := by
          cases hb : (handleEvent c sk ev st0 acc).threw with
          | true => exact absurd hb ht
          | false => rfl
        by_cases h16 : (ev.event == 16) = true
        · rw [if_pos h16]
          obtain ⟨hgt, hgth, hgan⟩ := handleGameEnd_spec c sk (handleEvent c sk ev st0 acc) ht2
          obtain ⟨st3, hget3, _, _, hseen3⟩ :=
            handleGameEnd_mapGet c sk (handleEvent c sk ev st0 acc) st1 hget1
          have hseen3b : st3.seen = st0.seen ++ [ev.idx] := hseen3.trans hseen1
          obtain ⟨Δ, st1x, a1, a2, a3, a4, a5, a6, a7, a8⟩ :=
            hstop (handleEvent c sk ev st0 acc) rfl rfl hget1 hanew
          refine ⟨Δ, st3, hgt.trans a1, hget3, ?_, a4, a5, a6, a7, hgan.trans a8⟩
          have hinj : st1x = st1 := Option.some.inj (a2.symm.trans hget1)
          rw [hseen3, ← hinj]
          exact a3
        · rw [if_neg h16]
          obtain ⟨Δ2, st2, b1, b2, b3, b4, b5, b6, b7, b8⟩ :=
            ih (handleEvent c sk ev st0 acc) st1 hget1 hsort2
          have hmD : markIdxs (Action.mark ev.idx ev.event :: tl ++ Δ2)
              = ev.idx :: markIdxs Δ2 := by
            rw [show Action.mark ev.idx ev.event :: tl ++ Δ2
                = (Action.mark ev.idx ev.event :: tl) ++ Δ2 from rfl,
              markIdxs_append, hmB]
            rfl
          refine ⟨Action.mark ev.idx ev.event :: tl ++ Δ2, st2, ?_, b2, ?_, ?_, ?_, ?_, ?_, ?_⟩
          · rw [b1, htr]
            simp [List.append_assoc]
          · rw [hmD, b3, hseen1]
            simp
          · rw [hmD]
            refine List.sorted_cons.mpr ⟨?_, b4⟩
            intro b hb
            obtain ⟨hbu, e, he, hei⟩ := b5 b hb
            have hne : b ≠ ev.idx := by
              intro hc
              apply hbu
              rw [hseen1, hc]
              exact List.mem_append_right _ (List.mem_singleton_self ev.idx)
            exact lt_of_le_of_ne (hei ▸ hhead e he) (Ne.symm hne)
          · intro j hj
            rw [hmD, List.mem_cons] at hj
            rcases hj with hj1 | hj2
            · subst hj1; exact ⟨hs, ev, List.mem_cons_self ev rest, rfl⟩
            · obtain ⟨hbu, e, he, hei⟩ := b5 j hj2
              refine ⟨?_, e, List.mem_cons_of_mem ev he, hei⟩
              intro hc
              exact hbu (hseen1 ▸ List.mem_append_left _ hc)
          · intro a ha
            rw [hmD]
            rcases List.mem_append.mp ha with ha1 | ha2
            · rcases List.mem_cons.mp ha1 with hb1 | hb2
              · subst hb1; exact ⟨ev.idx, rfl, List.mem_cons_self _ _⟩
              · exact ⟨ev.idx, (htl a hb2).1, List.mem_cons_self _ _⟩
            · obtain ⟨j, hji, hjm⟩ := b6 a ha2
              exact ⟨j, hji, List.mem_cons_of_mem _ hjm⟩
          · intro a ha hnm
            rcases List.mem_append.mp ha with ha1 | ha2
            · rcases List.mem_cons.mp ha1 with hb1 | hb2
              · subst hb1; exact absurd hnm (by simp [isMarkA])
              · refine ⟨ev.idx, ev.event, (htl a hb2).1, ?_⟩
                exact List.Sublist.trans
                  (List.Sublist.cons₂ _ (List.singleton_sublist.mpr hb2))
                  (List.sublist_append_left _ Δ2)
            · obtain ⟨j, cd, hji, hsub⟩ := b7 a ha2 hnm
              exact ⟨j, cd, hji, hsub.trans (List.sublist_append_right _ Δ2)⟩
          · rw [hmD, b8, hanew]
            simp

/-- Once the loop marks an unseen game-end event (code 16) it breaks: the
mark came from a batch event of index `i` and code 16, and every id the
whole run touched is at most `i`. -/
theorem processLoop_stop16 (c : String) (sk : Nat → Bool) (i : Nat) (l : List EventRec) :
    ∀ acc : PRes, List.Sorted evIdxLe l →
      Action.mark i 16 ∉ acc.trace →
      Action.mark i 16 ∈ (processLoop c sk l acc).trace →
      (∃ e ∈ l, e.idx = i ∧ e.event = 16)
        ∧ ∀ j ∈ traceIdxs (processLoop c sk l acc).trace,
            j ∈ traceIdxs acc.trace ∨ j ≤ i := by
  induction l with
  | nil =>
    intro acc _ hnot hmem
    rw [processLoop_nil] at hmem
    exact absurd hmem hnot
  | cons ev rest ih =>
    intro acc hsort hnot hmem
    have hsort2 : List.Sorted evIdxLe rest := (List.sorted_cons.mp hsort).2
    have hhead : ∀ b ∈ rest, ev.idx ≤ b.idx := (List.sorted_cons.mp hsort).1
    cases hg : mapGet acc.tickers c with
    | none =>
      rw [processLoop_cons_none c sk ev rest acc hg] at hmem ⊢
      exact absurd hmem hnot
    | some st0 =>
      by_cases hs : ev.idx ∈ st0.seen
      · rw [processLoop_cons_seen c sk ev rest acc st0 hg hs] at hmem ⊢
        obtain ⟨⟨e, he, hp⟩, hbnd⟩ := ih acc hsort2 hnot hmem
        exact ⟨⟨e, List.mem_cons_of_mem ev he, hp⟩, hbnd⟩
      · rw [processLoop_cons_unseen c sk ev rest acc st0 hg hs] at hmem ⊢
        obtain ⟨tl, htr, htl⟩ := handleEvent_trace_shape c sk ev st0 acc
        have hstop : Action.mark i 16 ∈ (handleEvent c sk ev st0 acc).trace →
            (∃ e ∈ ev :: rest, e.idx = i ∧ e.event = 16)
              ∧ ∀ j ∈ traceIdxs (handleEvent c sk ev st0 acc).trace,
                  j ∈ traceIdxs acc.trace ∨ j ≤ i := by
          intro hm2
          rw [htr] at hm2
          rcases List.mem_append.mp hm2 with hma | hmb
          · exact absurd hma hnot
          · have hev : ev.idx = i ∧ ev.event = 16 := by
              rcases List.mem_cons.mp hmb with hc1 | hc2
              · exact ⟨(Action.mark.injEq _ _ _ _).mp hc1.symm |>.1,
                  (Action.mark.injEq _ _ _ _).mp hc1.symm |>.2⟩
              · exact absurd ((htl _ hc2).2) (by simp [isMarkA])
            refine ⟨⟨ev, List.mem_cons_self ev rest, hev.1, hev.2⟩, ?_⟩
            intro j hj
            rw [htr, traceIdxs_append] at hj
            rcases List.mem_append.mp hj with hj1 | hj2
            · exact Or.inl hj1
            · refine Or.inr ?_
              obtain ⟨a, ha, hai⟩ := (mem_traceIdxs j _).mp hj2
              rcases List.mem_cons.mp ha with hb1 | hb2
              · rw [hb1] at hai
                have : ev.idx = j := by simpa [actionIdx] using hai
                rw [← this, hev.1]
              · have : j = ev.idx := by
                  have h1 := (htl a hb2).1
                  rw [hai] at h1
                  exact Option.some.inj h1
                rw [this, hev.1]
        by_cases ht : (handleEvent c sk ev st0 acc).threw = true
        · rw [if_pos ht] at hmem ⊢
          exact hstop hmem
        · rw [if_neg ht] at hmem ⊢
          have ht2 : (handleEvent c sk ev st0 acc).threw = false := by
            cases hb : (handleEvent c sk ev st0 acc).threw with
            | true => exact absurd hb ht
            | false => rfl
          by_cases h16 : (ev.event == 16) = true
          · rw [if_pos h16] at hmem ⊢
            have hgt := (handleGameEnd_spec c sk (handleEvent c sk ev st0 acc) ht2).1
            rw [hgt] at hmem ⊢
            exact hstop hmem
          · rw [if_neg h16] at hmem ⊢
            have hne16 : ev.event ≠ 16 := by
              intro hc
              rw [hc] at h16
              exact h16 (by decide)
            have hnot2 : Action.mark i 16 ∉ (handleEvent c sk ev st0 acc).trace := by
              rw [htr]
              intro hc
              rcases List.mem_append.mp hc with hca | hcb
              · exact hnot hca
              · rcases List.mem_cons.mp hcb with hc1 | hc2
                · exact hne16 ((Action.mark.injEq _ _ _ _).mp hc1.symm).2
                · exact absurd ((htl _ hc2).2) (by simp [isMarkA])
            obtain ⟨⟨e, he, hp, hp16⟩, hbnd⟩ := ih _ hsort2 hnot2 hmem
            have hile : ev.idx ≤ i := hp ▸ hhead e he
            refine ⟨⟨e, List.mem_cons_of_mem ev he, hp, hp16⟩, ?_⟩
            intro j hj
            rcases hbnd j hj with hj1 | hj2
            · rw [htr, traceIdxs_append] at hj1
              rcases List.mem_append.mp hj1 with hk1 | hk2
              · exact Or.inl hk1
              · refine Or.inr ?_
                obtain ⟨a, ha, hai⟩ := (mem_traceIdxs j _).mp hk2
                rcases List.mem_cons.mp ha with hb1 | hb2
                · rw [hb1] at hai
                  have : ev.idx = j := by simpa [actionIdx] using hai
                  exact this ▸ hile
                · have hj3 : j = ev.idx := by
                    have h1 := (htl a hb2).1
                    rw [hai] at h1
                    exact Option.some.inj h1
                  exact hj3 ▸ hile
            · exact Or.inr hj2

/-- C10: batch processing stops at the termination marker.  When the
event processor marks an unseen game-end event (code 16) of sequence
index `i`, that event came from the batch, every id the call touched is
at most `i`, and every batch event with a higher sequence index is
neither marked nor delivered nor buffered, and its membership in the
seen-set is unchanged (it stays unseen if it was unseen). -/
theorem batch_stops_at_game_end (evs : List EventRec) (c : String) (sk : Nat → Bool)
    (tks : List (String × TickerState)) (q : List Job) (st0 : TickerState) (i : Nat)
    (hget : mapGet tks c = some st0)
    (hmem : Action.mark i 16 ∈ (processEventsCore (some evs) c sk tks q).trace) :
    (∃ e ∈ evs, e.idx = i ∧ e.event = 16)
      ∧ (∀ j ∈ traceIdxs (processEventsCore (some evs) c sk tks q).trace, j ≤ i)
      ∧ (∀ f ∈ evs, i < f.idx →
          (∀ cd, Action.mark f.idx cd ∉ (processEventsCore (some evs) c sk tks q).trace)
          ∧ (∀ m, Action.send f.idx m ∉ (processEventsCore (some evs) c sk tks q).trace)
          ∧ Action.buffer f.idx ∉ (processEventsCore (some evs) c sk tks q).trace
          ∧ (∀ st1, mapGet (processEventsCore (some evs) c sk tks q).tickers c = some st1 →
              (f.idx ∈ st1.seen ↔ f.idx ∈ st0.seen))) := by
  have hpe : processEventsCore (some evs) c sk tks q
      = processLoop c sk (sortByIdx evs) { tickers := tks, queue := q } := rfl
  have hsort : List.Sorted evIdxLe (sortByIdx evs) := List.sorted_insertionSort evIdxLe evs
  have hperm : ∀ e : EventRec, e ∈ sortByIdx evs ↔ e ∈ evs :=
    fun e => (List.perm_insertionSort evIdxLe evs).mem_iff
  have hnot : Action.mark i 16 ∉ ({ tickers := tks, queue := q } : PRes).trace :=
    List.not_mem_nil _
  rw [hpe] at hmem
  obtain ⟨⟨e, heS, hp, h16⟩, hbnd⟩ :=
    processLoop_stop16 c sk i (sortByIdx evs) { tickers := tks, queue := q } hsort hnot hmem
  have hbnd2 : ∀ j ∈ traceIdxs (processEventsCore (some evs) c sk tks q).trace, j ≤ i := by
    intro j hj
    rw [hpe] at hj
    rcases hbnd j hj with hj1 | hj2
    · exact absurd hj1 (List.not_mem_nil j)
    · exact hj2
  obtain ⟨Δ, st1m, m1, m2, m3, _, _, _, _, _⟩ :=
    processLoop_master c sk (sortByIdx evs) { tickers := tks, queue := q } st0 hget hsort
  have hDr : Δ = (processEventsCore (some evs) c sk tks q).trace := by
    rw [hpe]
    exact (List.nil_append Δ ▸ m1).symm
  refine ⟨⟨e, (hperm e).mp heS, hp, h16⟩, hbnd2, ?_⟩
  intro f hf hfi
  have hnotouch : f.idx ∉ traceIdxs (processEventsCore (some evs) c sk tks q).trace := by
    intro hc
    exact absurd (hbnd2 f.idx hc) (Nat.not_le_of_lt hfi)
  refine ⟨?_, ?_, ?_, ?_⟩
  · intro cd hc
    exact hnotouch ((mem_traceIdxs f.idx _).mpr ⟨Action.mark f.idx cd, hc, rfl⟩)
  · intro m hc
    exact hnotouch ((mem_traceIdxs f.idx _).mpr ⟨Action.send f.idx m, hc, rfl⟩)
  · intro hc
    exact hnotouch ((mem_traceIdxs f.idx _).mpr ⟨Action.buffer f.idx, hc, rfl⟩)
  · intro st1 hst1
    rw [hpe] at hst1
    have hinj : st1 = st1m := Option.some.inj (hst1.symm.trans m2)
    have hnm : f.idx ∉ markIdxs Δ := by
      intro hc
      exact hnotouch (hDr ▸ markIdxs_subset_traceIdxs f.idx Δ hc)
    rw [hinj, m3]
    constructor
    · intro hmem2
      rcases List.mem_append.mp hmem2 with hm1 | hm2
      · exact hm1
      · exact absurd hm2 hnm
    · exact List.mem_append_left _

/-- Witness for `batch_stops_at_game_end`: a two-event batch whose
game-end marker has the lower index; the later goal event is untouched
and stays unseen. -/
theorem batch_stops_at_game_end_witness :
    (mapGet [("g", stC10)] "g" = some stC10
      ∧ Action.mark 1 16 ∈ (processEventsCore (some [evA4, evG16]) "g" (fun _ => true)
            [("g", stC10)] []).trace)
    ∧ ((∃ e ∈ [evA4, evG16], e.idx = 1 ∧ e.event = 16)
      ∧ (∀ j ∈ traceIdxs (processEventsCore (some [evA4, evG16]) "g" (fun _ => true)
            [("g", stC10)] []).trace, j ≤ 1)
      ∧ (∀ f ∈ [evA4, evG16], 1 < f.idx →
          (∀ cd, Action.mark f.idx cd ∉ (processEventsCore (some [evA4, evG16]) "g"
              (fun _ => true) [("g", stC10)] []).trace)
          ∧ (∀ m, Action.send f.idx m ∉ (processEventsCore (some [evA4, evG16]) "g"
              (fun _ => true) [("g", stC10)] []).trace)
          ∧ Action.buffer f.idx ∉ (processEventsCore (some [evA4, evG16]) "g"
              (fun _ => true) [("g", stC10)] []).trace
          ∧ (∀ st1, mapGet (processEventsCore (some [evA4, evG16]) "g" (fun _ => true)
                [("g", stC10)] []).tickers "g" = some st1 →
              (f.idx ∈ st1.seen ↔ f.idx ∈ stC10.seen)))) :=
  ⟨⟨rfl, by decide⟩,
    batch_stops_at_game_end [evA4, evG16] "g" (fun _ => true) [("g", stC10)] [] stC10 1
      rfl (by decide)⟩

/-- C2: event-processor correctness.  The loop handles events in
ascending sequence-index order (the marked ids are strictly ascending and
the final seen-set extends the initial one by exactly them, each coming
from the batch and unseen before); an already-seen event is skipped
(never marked, delivered or buffered); every delivery or buffer action is
preceded by the mark of its id, so a second run over the same batch
redelivers nothing; and the returned flag says whether a new id was
added. -/
theorem processEvents_spec (evs : List EventRec) (c : String) (sk : Nat → Bool)
    (tks : List (String × TickerState)) (q : List Job) (st0 : TickerState)
    (hget : mapGet tks c = some st0) :
    ∃ st1, mapGet (processEventsCore (some evs) c sk tks q).tickers c = some st1
      ∧ st1.seen = st0.seen ++ markIdxs (processEventsCore (some evs) c sk tks q).trace
      ∧ List.Sorted (fun a b => a < b)
          (markIdxs (processEventsCore (some evs) c sk tks q).trace)
      ∧ (∀ j ∈ markIdxs (processEventsCore (some evs) c sk tks q).trace,
            j ∉ st0.seen ∧ ∃ e ∈ evs, e.idx = j)
      ∧ (∀ e ∈ evs, e.idx ∈ st0.seen →
            (∀ cd, Action.mark e.idx cd ∉ (processEventsCore (some evs) c sk tks q).trace)
            ∧ (∀ m, Action.send e.idx m ∉ (processEventsCore (some evs) c sk tks q).trace)
            ∧ Action.buffer e.idx ∉ (processEventsCore (some evs) c sk tks q).trace)
      ∧ (∀ j m, Action.send j m ∈ (processEventsCore (some evs) c sk tks q).trace →
            ∃ cd, List.Sublist [Action.mark j cd, Action.send j m]
              (processEventsCore (some evs) c sk tks q).trace)
      ∧ (∀ j, Action.buffer j ∈ (processEventsCore (some evs) c sk tks q).trace →
            ∃ cd, List.Sublist [Action.mark j cd, Action.buffer j]
              (processEventsCore (some evs) c sk tks q).trace)
      ∧ (processEventsCore (some evs) c sk tks q).ret
          = (if (processEventsCore (some evs) c sk tks q).threw then none
             else some (!(markIdxs (processEventsCore (some evs) c sk tks q).trace).isEmpty))
      ∧ (∀ (sk2 : Nat → Bool) (q2 : List Job) (j : Nat),
            j ∈ markIdxs (processEventsCore (some evs) c sk tks q).trace →
            j ∉ traceIdxs (processEventsCore (some evs) c sk2
                (processEventsCore (some evs) c sk tks q).tickers q2).trace) := by
  have hpe : processEventsCore (some evs) c sk tks q
      = processLoop c sk (sortByIdx evs) { tickers := tks, queue := q } := rfl
  have hsort : List.Sorted evIdxLe (sortByIdx evs) := List.sorted_insertionSort evIdxLe evs
  have hperm : ∀ e : EventRec, e ∈ sortByIdx evs ↔ e ∈ evs :=
    fun e => (List.perm_insertionSort evIdxLe evs).mem_iff
  obtain ⟨Δ, st1, m1, m2, m3, m4, m5, m6, m7, m8⟩ :=
    processLoop_master c sk (sortByIdx evs) { tickers := tks, queue := q } st0 hget hsort
  have hDr : (processEventsCore (some evs) c sk tks q).trace = Δ := by
    rw [hpe, m1]
    exact List.nil_append Δ
  refine ⟨st1, hpe ▸ m2, ?_, ?_, ?_, ?_, ?_, ?_, ?_, ?_⟩
  · rw [hDr]; exact m3
  · rw [hDr]; exact m4
  · rw [hDr]
    intro j hj
    obtain ⟨e, he, hei⟩ := (m5 j hj).2
    exact ⟨(m5 j hj).1, e, (hperm e).mp he, hei⟩
  · intro e he hseen
    have hnm : e.idx ∉ markIdxs Δ := fun hc => (m5 e.idx hc).1 hseen
    have hnt : ∀ a ∈ Δ, actionIdx a ≠ some e.idx := by
      intro a ha hc
      obtain ⟨j, hji, hjm⟩ := m6 a ha
      rw [hji] at hc
      exact hnm (Option.some.inj hc ▸ hjm)
    rw [hDr]
    exact ⟨fun cd hc => hnt _ hc rfl, fun m hc => hnt _ hc rfl, fun hc => hnt _ hc rfl⟩
  · rw [hDr]
    intro j m hc
    obtain ⟨jx, cd, hji, hsub⟩ := m7 (Action.send j m) hc (by simp [isMarkA])
    have : jx = j := Option.some.inj hji.symm
    exact ⟨cd, this ▸ hsub⟩
  · rw [hDr]
    intro j hc
    obtain ⟨jx, cd, hji, hsub⟩ := m7 (Action.buffer j) hc (by simp [isMarkA])
    have : jx = j := Option.some.inj hji.symm
    exact ⟨cd, this ▸ hsub⟩
  · have hA : (processEventsCore (some evs) c sk tks q).anyNew
        = !(markIdxs (processEventsCore (some evs) c sk tks q).trace).isEmpty := by
      rw [hDr, hpe, m8]
      exact Bool.false_or _
    unfold PRes.ret
    rw [hA]
  · intro sk2 q2 j hj
    rw [hDr] at hj
    have hget2 : mapGet (processEventsCore (some evs) c sk tks q).tickers c = some st1 :=
      hpe ▸ m2
    obtain ⟨Δ2, st2, n1, n2, n3, n4, n5, n6, n7, n8⟩ :=
      processLoop_master c sk2 (sortByIdx evs)
        { tickers := (processEventsCore (some evs) c sk tks q).tickers, queue := q2 }
        st1 hget2 (List.sorted_insertionSort evIdxLe evs)
    have hDr2 : (processEventsCore (some evs) c sk2
        (processEventsCore (some evs) c sk tks q).tickers q2).trace = Δ2 := by
      rw [show processEventsCore (some evs) c sk2
            (processEventsCore (some evs) c sk tks q).tickers q2
          = processLoop c sk2 (sortByIdx evs)
            { tickers := (processEventsCore (some evs) c sk tks q).tickers,
              queue := q2 } from rfl, n1]
      exact List.nil_append Δ2
    rw [hDr2]
    intro hc
    obtain ⟨a, ha, hai⟩ := (mem_traceIdxs j Δ2).mp hc
    obtain ⟨jx, hji, hjm⟩ := n6 a ha
    rw [hai] at hji
    rw [← Option.some.inj hji] at hjm
    have hjin : j ∈ st1.seen := m3 ▸ List.mem_append_right _ hj
    exact (n5 j hjm).1 hjin

/-- Witness for `processEvents_spec`: a batch with one fresh goal event
and one already-seen event, processed by a live polling ticker. -/
theorem processEvents_spec_witness :
    ∃ st1, mapGet (processEventsCore (some [evA4, evSeen]) "g" (fun _ => true)
          [("g", stC10)] []).tickers "g" = some st1
      ∧ st1.seen = stC10.seen
          ++ markIdxs (processEventsCore (some [evA4, evSeen]) "g" (fun _ => true)
              [("g", stC10)] []).trace
      ∧ List.Sorted (fun a b => a < b)
          (markIdxs (processEventsCore (some [evA4, evSeen]) "g" (fun _ => true)
              [("g", stC10)] []).trace)
      ∧ (∀ j ∈ markIdxs (processEventsCore (some [evA4, evSeen]) "g" (fun _ => true)
            [("g", stC10)] []).trace,
            j ∉ stC10.seen ∧ ∃ e ∈ [evA4, evSeen], e.idx = j)
      ∧ (∀ e ∈ [evA4, evSeen], e.idx ∈ stC10.seen →
            (∀ cd, Action.mark e.idx cd ∉ (processEventsCore (some [evA4, evSeen]) "g"
                (fun _ => true) [("g", stC10)] []).trace)
            ∧ (∀ m, Action.send e.idx m ∉ (processEventsCore (some [evA4, evSeen]) "g"
                (fun _ => true) [("g", stC10)] []).trace)
            ∧ Action.buffer e.idx ∉ (processEventsCore (some [evA4, evSeen]) "g"
                (fun _ => true) [("g", stC10)] []).trace)
      ∧ (∀ j m, Action.send j m ∈ (processEventsCore (some [evA4, evSeen]) "g"
            (fun _ => true) [("g", stC10)] []).trace →
            ∃ cd, List.Sublist [Action.mark j cd, Action.send j m]
              (processEventsCore (some [evA4, evSeen]) "g" (fun _ => true)
                [("g", stC10)] []).trace)
      ∧ (∀ j, Action.buffer j ∈ (processEventsCore (some [evA4, evSeen]) "g"
            (fun _ => true) [("g", stC10)] []).trace →
            ∃ cd, List.Sublist [Action.mark j cd, Action.buffer j]
              (processEventsCore (some [evA4, evSeen]) "g" (fun _ => true)
                [("g", stC10)] []).trace)
      ∧ (processEventsCore (some [evA4, evSeen]) "g" (fun _ => true)
            [("g", stC10)] []).ret
          = (if (processEventsCore (some [evA4, evSeen]) "g" (fun _ => true)
                [("g", stC10)] []).threw then none
             else some (!(markIdxs (processEventsCore (some [evA4, evSeen]) "g"
                (fun _ => true) [("g", stC10)] []).trace).isEmpty))
      ∧ (∀ (sk2 : Nat → Bool) (q2 : List Job) (j : Nat),
            j ∈ markIdxs (processEventsCore (some [evA4, evSeen]) "g" (fun _ => true)
                [("g", stC10)] []).trace →
            j ∉ traceIdxs (processEventsCore (some [evA4, evSeen]) "g" sk2
                (processEventsCore (some [evA4, evSeen]) "g" (fun _ => true)
                  [("g", stC10)] []).tickers q2).trace) :=
  processEvents_spec [evA4, evSeen] "g" (fun _ => true) [("g", stC10)] [] stC10 rfl

/-! ### C5: fairness of the round-robin scheduler -/

theorem masterScheduler_tickers (s : Sys) : (masterScheduler s).tickers = s.tickers := by
  unfold masterScheduler
  dsimp only
  repeat' split
  all_goals rfl

theorem masterScheduler_pollingOf (s : Sys) : pollingOf (masterScheduler s) = pollingOf s := by
  unfold pollingOf
  rw [masterScheduler_tickers]

theorem masterScheduler_iterate_tickers (s : Sys) :
    ∀ k, (masterScheduler^[k] s).tickers = s.tickers := by
  intro k
  induction k with
  | zero => rfl
  | succ k ih => rw [Function.iterate_succ_apply', masterScheduler_tickers]; exact ih

theorem masterScheduler_iterate_pollingOf (s : Sys) (k : Nat) :
    pollingOf (masterScheduler^[k] s) = pollingOf s := by
  unfold pollingOf
  rw [masterScheduler_iterate_tickers]

theorem masterScheduler_empty (s : Sys) (h : (pollingOf s).length = 0) :
    masterScheduler s = s := by
  unfold masterScheduler
  rw [if_pos h]

theorem masterScheduler_cursor (s : Sys) (hn : 0 < (pollingOf s).length) :
    (masterScheduler s).cursor = (s.cursor + 1) % ((pollingOf s).length : Int) := by
  unfold masterScheduler
  rw [if_neg (by omega)]
  dsimp only
  repeat' split
  all_goals rfl

theorem masterScheduler_iterate_cursor (s : Sys) (hn : 0 < (pollingOf s).length) :
    ∀ k, (masterScheduler^[k + 1] s).cursor
      = (s.cursor + (k + 1)) % ((pollingOf s).length : Int) := by
  intro k
  induction k with
  | zero =>
    rw [Function.iterate_one]
    exact masterScheduler_cursor s hn
  | succ k ih =>
    rw [Function.iterate_succ_apply']
    have hpoll : pollingOf (masterScheduler^[k + 1] s) = pollingOf s :=
      masterScheduler_iterate_pollingOf s (k + 1)
    have hn2 : 0 < (pollingOf (masterScheduler^[k + 1] s)).length := by rw [hpoll]; exact hn
    rw [masterScheduler_cursor _ hn2, hpoll, ih]
    rw [Int.emod_add_emod]
    congr 1
    push_cast
    ring

theorem selIdx_iterate (s : Sys) (hn : 0 < (pollingOf s).length) (k : Nat) :
    selIdx (masterScheduler^[k] s)
      = (((s.cursor + 1 + k) % ((pollingOf s).length : Int))).toNat := by
  cases k with
  | zero =>
    unfold selIdx
    simp
  | succ k =>
    unfold selIdx
    rw [masterScheduler_iterate_pollingOf s (k + 1), masterScheduler_iterate_cursor s hn k]
    rw [Int.emod_add_emod]
    congr 2
    push_cast
    ring

/-- Over one full rotation, the advancing-cursor formula hits every index
below `n` exactly once. -/
theorem exists_unique_emod (c : Int) (n : Nat) (hn : 0 < n) (j : Nat) (hj : j < n) :
    ∃! k : Nat, k < n ∧ ((c + k) % (n : Int)).toNat = j := by
  have hnz : (0 : Int) < (n : Int) := by exact_mod_cast hn
  have key : ∀ k1 k2 : Nat, k1 < n → k2 < n →
      ((c + k1) % (n : Int)).toNat = ((c + k2) % (n : Int)).toNat → k1 = k2 := by
    intro k1 k2 h1 h2 heq
    have e1 : 0 ≤ (c + k1) % (n : Int) := Int.emod_nonneg _ (by omega)
    have e2 : 0 ≤ (c + k2) % (n : Int) := Int.emod_nonneg _ (by omega)
    have heq2 : (c + k1) % (n : Int) = (c + k2) % (n : Int) := by
      have h3 := congrArg (fun x : Nat => (x : Int)) heq
      dsimp only at h3
      rwa [Int.toNat_of_nonneg e1, Int.toNat_of_nonneg e2] at h3
    have hdvd : (n : Int) ∣ ((k2 : Int) - k1) := by
      have h4 := Int.ModEq.dvd (heq2 : Int.ModEq (n : Int) (c + k1) (c + k2))
      have h5 : (c + k2) - (c + k1) = (k2 : Int) - k1 := by ring
      rwa [h5] at h4
    obtain ⟨m, hm⟩ := hdvd
    have hb1 : (n : Int) * m < (n : Int) * 1 := by
      rw [← hm, mul_one]
      have : (k2 : Int) < n := by exact_mod_cast h2
      have : (0 : Int) ≤ k1 := by positivity
      omega
    have hb2 : (n : Int) * (-1) < (n : Int) * m := by
      rw [← hm]
      have : (k1 : Int) < n := by exact_mod_cast h1
      have : (0 : Int) ≤ k2 := by positivity
      omega
    have hm1 : m < 1 := lt_of_mul_lt_mul_left hb1 (by positivity)
    have hm2 : -1 < m := lt_of_mul_lt_mul_left hb2 (by positivity)
    have hm0 : m = 0 := by omega
    rw [hm0, mul_zero] at hm
    omega
  refine ⟨((( j : Int) - c) % (n : Int)).toNat, ⟨?_, ?_⟩, ?_⟩
  · have := Int.emod_lt_of_pos ((j : Int) - c) hnz
    have := @Int.emod_nonneg ((j : Int) - c) (n : Int) (by omega)
    omega
  · have ht0 : 0 ≤ ((j : Int) - c) % (n : Int) := Int.emod_nonneg _ (by omega)
    rw [Int.toNat_of_nonneg ht0]
    have h6 : (c + ((j : Int) - c) % (n : Int)) % (n : Int) = (j : Int) % (n : Int) := by
      rw [Int.add_emod, Int.emod_emod_of_dvd _ dvd_rfl, ← Int.add_emod]
      congr 1
      ring
    rw [h6, Int.emod_eq_of_lt (by positivity) (by exact_mod_cast hj)]
    exact Int.toNat_natCast j
  · intro k hk
    apply key k _ hk.1 ?_ ?_
    · have := Int.emod_lt_of_pos ((j : Int) - c) hnz
      have := @Int.emod_nonneg ((j : Int) - c) (n : Int) (by omega)
      omega
    · rw [hk.2]
      have ht0 : 0 ≤ ((j : Int) - c) % (n : Int) := Int.emod_nonneg _ (by omega)
      rw [Int.toNat_of_nonneg ht0]
      have h6 : (c + ((j : Int) - c) % (n : Int)) % (n : Int) = (j : Int) % (n : Int) := by
        rw [Int.add_emod, Int.emod_emod_of_dvd _ dvd_rfl, ← Int.add_emod]
        congr 1
        ring
      rw [h6, Int.emod_eq_of_lt (by positivity) (by exact_mod_cast hj)]
      exact (Int.toNat_natCast j).symm

/-- The identity-based find of the source resolves to the selected entry
itself when no two tickers share an equal state value. -/
theorem find?_snd_nodup (l : List (String × TickerState)) (x : String × TickerState)
    (hx : x ∈ l) (hnd : (l.map (fun p => p.2)).Nodup) :
    l.find? (fun p => p.2 == x.2) = some x := by
  induction l with
  | nil => exact absurd hx (List.not_mem_nil x)
  | cons p t ih =>
    rw [List.map_cons, List.nodup_cons] at hnd
    rcases List.mem_cons.mp hx with h1 | h2
    · subst h1
      exact @List.find?_cons_of_pos _ (fun q => q.2 == x.2) x t (by simp)
    · by_cases hpe : p.2 = x.2
      · exact absurd (hpe ▸ List.mem_map_of_mem (fun q => q.2) h2) hnd.1
      · rw [@List.find?_cons_of_neg _ (fun q => q.2 == x.2) p t (by simp [hpe])]
        exact ih h2 hnd.2

theorem selIdx_lt (s : Sys) (hn : 0 < (pollingOf s).length) :
    selIdx s < (pollingOf s).length := by
  unfold selIdx
  have hnz : (0 : Int) < ((pollingOf s).length : Int) := by exact_mod_cast hn
  have h1 := Int.emod_lt_of_pos (s.cursor + 1) hnz
  have h2 := @Int.emod_nonneg (s.cursor + 1) ((pollingOf s).length : Int) (by omega)
  omega

theorem selEntry_mem (s : Sys) (hn : 0 < (pollingOf s).length) :
    selEntry s ∈ pollingOf s := by
  unfold selEntry
  rw [List.getD_eq_getElem (pollingOf s) ("", {}) (selIdx_lt s hn)]
  exact List.getElem_mem _

theorem selEntry_isPolling (s : Sys) (hn : 0 < (pollingOf s).length) :
    (selEntry s).2.isPolling = true := by
  have h := selEntry_mem s hn
  unfold pollingOf at h
  exact (List.mem_filter.mp h).2

/-- One fairness tick appends a Poll Job for the selected entry whenever
its channel id is non-empty, ticker state values are pairwise distinct
(so the identity-find resolves it), and the channel has no queued job. -/
theorem masterScheduler_enqueue (s : Sys) (hn : 0 < (pollingOf s).length)
    (hnodup : (s.tickers.map (fun p => p.2)).Nodup)
    (hcid : (selEntry s).1 ≠ "")
    (hfree : ∀ jb ∈ s.queue, jb.chatId ≠ (selEntry s).1) :
    (masterScheduler s).queue
      = s.queue ++ [{ type := JobType.poll, chatId := (selEntry s).1,
                      meetingPageUrl := (selEntry s).2.meetingPageUrl,
                      jobId := s.nextJobId }] := by
  have hmem : selEntry s ∈ s.tickers := by
    have h := selEntry_mem s hn
    unfold pollingOf at h
    exact (List.mem_filter.mp h).1
  have hfind : s.tickers.find? (fun p => p.2 == (selEntry s).2) = some (selEntry s) :=
    find?_snd_nodup s.tickers (selEntry s) hmem hnodup
  have hguard : ((selEntry s).1 != "" && (selEntry s).2.isPolling
      && !(s.queue.any (fun j => j.chatId == (selEntry s).1 && j.type == JobType.poll)))
        = true := by
    have hany : s.queue.any (fun j => j.chatId == (selEntry s).1 && j.type == JobType.poll)
        = false := by
      rw [List.any_eq_false]
      intro jb hjb
      simp [hfree jb hjb]
    rw [hany]
    simp [hcid, selEntry_isPolling s hn]
  unfold masterScheduler
  rw [if_neg (by omega)]
  dsimp only
  rw [hfind]
  dsimp only
  rw [if_pos hguard]

/-- C5: fairness of the round-robin scheduler.  A tick with no Polling
tickers changes nothing; a tick never alters the ticker registry, so the
Polling list and its stable order persist across ticks; across
`(pollingOf s).length` consecutive ticks every polling-list index is the
cursor target exactly once; and the tick whose selected entry has a
non-empty channel id with no queued or in-flight job for it (ticker state
values being pairwise distinct, so the identity-based lookup resolves)
appends exactly one Poll Job for that channel. -/
theorem masterScheduler_fairness (s : Sys) :
    ((pollingOf s).length = 0 → masterScheduler s = s)
    ∧ (masterScheduler s).tickers = s.tickers
    ∧ (0 < (pollingOf s).length →
        ∀ j, j < (pollingOf s).length →
          ∃! k, k < (pollingOf s).length ∧ selIdx (masterScheduler^[k] s) = j)
    ∧ (0 < (pollingOf s).length →
        (s.tickers.map (fun p => p.2)).Nodup →
        (selEntry s).1 ≠ "" →
        (∀ jb ∈ s.queue ++ s.running, jb.chatId ≠ (selEntry s).1) →
        (masterScheduler s).queue
          = s.queue ++ [{ type := JobType.poll, chatId := (selEntry s).1,
                          meetingPageUrl := (selEntry s).2.meetingPageUrl,
                          jobId := s.nextJobId }]) := by
  refine ⟨masterScheduler_empty s, masterScheduler_tickers s, ?_, ?_⟩
  · intro hn j hj
    obtain ⟨k, hk, huniq⟩ := exists_unique_emod (s.cursor + 1) (pollingOf s).length hn j hj
    refine ⟨k, ⟨hk.1, ?_⟩, ?_⟩
    · rw [selIdx_iterate s hn k]
      exact hk.2
    · intro y hy
      refine huniq y ⟨hy.1, ?_⟩
      rw [← selIdx_iterate s hn y]
      exact hy.2
  · intro hn hnodup hcid hfree
    exact masterScheduler_enqueue s hn hnodup hcid
      (fun jb hjb => hfree jb (List.mem_append_left _ hjb))

/-- Witness for `masterScheduler_fairness`: an empty-Polling system is
untouched, and on a two-ticker system the first index is targeted exactly
once per rotation and a Poll Job is enqueued for the selected channel. -/
theorem masterScheduler_fairness_witness :
    masterScheduler sysEmptyPoll = sysEmptyPoll
    ∧ (masterScheduler sysC5).tickers = sysC5.tickers
    ∧ (∃! k, k < (pollingOf sysC5).length ∧ selIdx (masterScheduler^[k] sysC5) = 0)
    ∧ (masterScheduler sysC5).queue
        = sysC5.queue ++ [{ type := JobType.poll, chatId := (selEntry sysC5).1,
                            meetingPageUrl := (selEntry sysC5).2.meetingPageUrl,
                            jobId := sysC5.nextJobId }] :=
  ⟨(masterScheduler_fairness sysEmptyPoll).1 (by decide),
   (masterScheduler_fairness sysC5).2.1,
   (masterScheduler_fairness sysC5).2.2.1 (by decide) 0 (by decide),
   (masterScheduler_fairness sysC5).2.2.2 (by decide) (by decide) (by decide)
     (fun jb hjb => absurd hjb (List.not_mem_nil jb))⟩

end Liveticker
